import Mathlib

/-!
Verification of the selector-fixer pipeline (`selector_fixer.py`).

The program text is modelled shallowly: Python strings become `List Char`,
the specific regular expressions used by the source become deterministic
scanners over `List Char` (each one is faithful to the leftmost,
non-overlapping semantics of `re.sub` / `re.findall` for that pattern),
`json.loads` becomes a total fuel-based parser returning `Option`, and the
one network call becomes a function of its abstract outcome.
-/

namespace SelectorFixer

/-- Text, as Python `str` restricted to its sequence-of-characters view. -/
abbrev Txt := List Char

/-- The backtick character, used by the markdown code-fence markers. -/
def btChar : Char := Char.ofNat 96

/-- Characters accepted by the regex character class `["\']`. -/
def isQuote (c : Char) : Bool := c = '"' || c = '\''

/-- Python's regex class `\s` and `str.strip`, on the ASCII range the
program manipulates: space, tab, newline, carriage return, vertical tab,
form feed. -/
def pySpace (c : Char) : Bool :=
  c = ' ' || c = '\t' || c = '\n' || c = '\r' || c = Char.ofNat 11 || c = Char.ofNat 12

/-- JSON insignificant whitespace as accepted by `json.loads`. -/
def jsonWs (c : Char) : Bool := c = ' ' || c = '\t' || c = '\n' || c = '\r'

/-- Whether `pat` occurs as a contiguous substring of `t`. -/
def containsSub (pat : Txt) : Txt → Bool
  | [] => pat.isEmpty
  | c :: cs => pat.isPrefixOf (c :: cs) || containsSub pat cs

/-- The list of positions at which `pat` occurs as a substring of `t`. -/
def occs (pat : Txt) : Txt → List Nat
  | [] => if pat.isEmpty then [0] else []
  | c :: cs =>
    (if pat.isPrefixOf (c :: cs) then [0] else []) ++ (occs pat cs).map (· + 1)

/-- Python `str.strip()` on the modelled whitespace set. -/
def pyStrip (t : Txt) : Txt :=
  ((t.dropWhile pySpace).reverse.dropWhile pySpace).reverse

/-- One mapping entry as it arrives from parsed JSON: each of the five
fields of the prompt's output shape may be absent from the object, which
the source tolerates through default-valued `dict.get` lookups. -/
structure MappingEntry where
  broken_selector : Option Txt
  playwright_equivalent : Option Txt
  suggested_xpath : Option Txt
  suggested_css : Option Txt
  reasoning : Option Txt
deriving DecidableEq

/-- The parsed top-level object: the `mappings` and
`general_recommendations` keys may each be absent. -/
structure MappingDict where
  mappings : Option (List MappingEntry)
  general_recommendations : Option (List Txt)
deriving DecidableEq

/-! ## Code Patcher (`update_selenium_code`)

For one entry the source runs
`re.sub(f'["\']({re.escape(broken)})["\']', f'"{suggested}"', code)`:
the pattern is a quote character (double or single), then the broken
selector taken literally, then a quote character; every leftmost
non-overlapping match is replaced by the suggested text in double quotes.
-/

/-- Whether the pattern `["\']broken["\']` matches at the head of `t`. -/
def matchHead (broken : Txt) (t : Txt) : Bool :=
  match t with
  | [] => false
  | c :: cs =>
    isQuote c && broken.isPrefixOf cs &&
      (match cs.drop broken.length with
       | c2 :: _ => isQuote c2
       | [] => false)

/-- Whether the pattern `["\']broken["\']` matches anywhere in `t`. -/
def hasQuotedOcc (broken : Txt) : Txt → Bool
  | [] => false
  | c :: cs => matchHead broken (c :: cs) || hasQuotedOcc broken cs

/-- Fuel-driven scanner for one `re.sub` call of the Code Patcher: scans
left to right, and at each match of `["\']broken["\']` emits
`"suggested"` and resumes after the match. With fuel at least the length
of the text it computes the substitution exactly. -/
def subQAux (broken suggested : Txt) : Nat → Txt → Txt
  | 0, t => t
  | _ + 1, [] => []
  | fuel + 1, c :: cs =>
    if matchHead broken (c :: cs) then
      '"' :: (suggested ++ '"' :: subQAux broken suggested fuel (cs.drop (broken.length + 1)))
    else
      c :: subQAux broken suggested fuel cs

/-- One `re.sub` call of the Code Patcher. -/
def subQ (broken suggested t : Txt) : Txt :=
  subQAux broken suggested t.length t

/-- One iteration of the Patcher's loop: apply the entry's substitution
unless its broken or suggested field is falsy (absent or empty). -/
def patchStep (acc : Txt) (m : MappingEntry) : Txt :=
  let broken := m.broken_selector.getD []
  let suggested := m.suggested_xpath.getD []
  if broken ≠ [] ∧ suggested ≠ [] then subQ broken suggested acc else acc

/-- `update_selenium_code`: folds the substitution over the entries in
order. The suggested text is inserted verbatim inside double quotes, as
the source's replacement string does for the selector texts at hand. -/
def update_selenium_code (code : Txt) (mappings : List MappingEntry) : Txt :=
  mappings.foldl patchStep code

/-- Literal leftmost non-overlapping replacement of every occurrence of
`pat` by `rep`, fuel-driven. -/
def replaceAllLitAux (pat rep : Txt) : Nat → Txt → Txt
  | 0, t => t
  | _ + 1, [] => []
  | fuel + 1, c :: cs =>
    if pat.isPrefixOf (c :: cs) then
      rep ++ replaceAllLitAux pat rep fuel ((c :: cs).drop pat.length)
    else
      c :: replaceAllLitAux pat rep fuel cs

/-- Literal leftmost non-overlapping replacement of `pat` by `rep`. -/
def replaceAllLit (pat rep t : Txt) : Txt :=
  replaceAllLitAux pat rep t.length t

/-- Modelled from the spec: the output the claim describes for the
Patcher — every occurrence of the double-quoted broken selector replaced
by the suggested text with the double quotes kept. Compared with
`update_selenium_code` for the refinement claim about the Patcher. -/
def specReplaceQuoted (broken suggested t : Txt) : Txt :=
  replaceAllLit ('"' :: broken ++ ['"']) ('"' :: suggested ++ ['"']) t

/-! ## Selector Extractor (`extract_selectors_from_selenium`)

The source runs `re.findall` with three patterns and deduplicates through
`list(set(...))`:
```
find_element\([^,]+,\s*["\']([^"\']+)["\']\)
find_elements\([^,]+,\s*["\']([^"\']+)["\']\)
By\.XPATH,\s*["\']([^"\']+)["\']\)
```
Each pattern is deterministic once greediness is resolved: `[^,]+` cannot
cross a comma so it ends at the first comma, `\s*` ends at the first
non-whitespace character, and `[^"\']+` ends at the first quote. The
scanners below realise exactly that. -/

/-- The shared suffix `["\']([^"\']+)["\']\)` of all three patterns: a
quote, a non-empty greedy run of non-quote characters (the capture), a
quote, and a closing parenthesis. -/
def quoteCapTail (t : Txt) : Option (Txt × Txt) :=
  match t with
  | q1 :: r3 =>
    if isQuote q1 then
      let cap := r3.takeWhile (fun c => !(isQuote c))
      if cap.isEmpty then none else
      match r3.drop cap.length with
      | q2 :: ')' :: r4 => if isQuote q2 then some (cap, r4) else none
      | _ => none
    else none
  | [] => none

/-- Attempt the pattern `find_element\([^,]+,\s*["\']([^"\']+)["\']\)` at
the head of `t`; on success return the capture and the rest of the text
after the match. `[^,]+` ends at the first comma, `\s*` at the first
non-whitespace character. -/
def p1try (t : Txt) : Option (Txt × Txt) :=
  if ("find_element(".toList).isPrefixOf t then
    let r0 := t.drop 13
    let obj := r0.takeWhile (· ≠ ',')
    if obj.isEmpty then none else
    match r0.drop obj.length with
    | ',' :: r1 => quoteCapTail (r1.dropWhile pySpace)
    | _ => none
  else none

/-- Attempt the pattern `find_elements\([^,]+,\s*["\']([^"\']+)["\']\)`
at the head of `t`. -/
def p2try (t : Txt) : Option (Txt × Txt) :=
  if ("find_elements(".toList).isPrefixOf t then
    let r0 := t.drop 14
    let obj := r0.takeWhile (· ≠ ',')
    if obj.isEmpty then none else
    match r0.drop obj.length with
    | ',' :: r1 => quoteCapTail (r1.dropWhile pySpace)
    | _ => none
  else none

/-- Attempt the pattern `By\.XPATH,\s*["\']([^"\']+)["\']\)` at the head
of `t`. -/
def p3try (t : Txt) : Option (Txt × Txt) :=
  if ("By.XPATH,".toList).isPrefixOf t then
    quoteCapTail ((t.drop 9).dropWhile pySpace)
  else none

/-- Fuel-driven `re.findall` for a pattern given by its head-matcher
`tryF`: collects captures of leftmost non-overlapping matches. -/
def findAllAux (tryF : Txt → Option (Txt × Txt)) : Nat → Txt → List Txt
  | 0, _ => []
  | _ + 1, [] => []
  | fuel + 1, c :: cs =>
    match tryF (c :: cs) with
    | some (cap, rest) => cap :: findAllAux tryF fuel rest
    | none => findAllAux tryF fuel cs

/-- `re.findall` for the pattern given by `tryF`. -/
def findAll (tryF : Txt → Option (Txt × Txt)) (t : Txt) : List Txt :=
  findAllAux tryF t.length t

/-- `extract_selectors_from_selenium`: the three patterns' captures,
concatenated and then deduplicated as `list(set(selectors))` does. The
source's set iteration order is unspecified; theorems about this
function use only its multiset/set view. -/
def extract_selectors_from_selenium (code : Txt) : List Txt :=
  (findAll p1try code ++ findAll p2try code ++ findAll p3try code).dedup

/-- The three well-formed path-based lookup shapes of the spec: a
single-element lookup, a multi-element lookup, and the explicit
path-addressing form as it appears inside an expected-condition tuple. -/
inductive Lookup where
  | single (arg : Txt)
  | multi (arg : Txt)
  | xpathMode (arg : Txt)
deriving DecidableEq

/-- The locator argument of a lookup. -/
def Lookup.arg : Lookup → Txt
  | .single a => a
  | .multi a => a
  | .xpathMode a => a

/-- The common tail of all three rendered shapes:
`By.XPATH, "arg")`. -/
def renderXp (arg : Txt) : Txt :=
  "By.XPATH, \"".toList ++ arg ++ ['"', ')']

/-- Rendered source text of one lookup. -/
def Lookup.render : Lookup → Txt
  | .single a => "find_element(".toList ++ renderXp a
  | .multi a => "find_elements(".toList ++ renderXp a
  | .xpathMode a => renderXp a

/-- A test file consisting of the given lookups, one per line. -/
def renderFile : List Lookup → Txt
  | [] => []
  | [lk] => lk.render
  | lk :: lks => lk.render ++ '\n' :: renderFile lks

/-- The locator argument of a single-element lookup. -/
def singleArg? : Lookup → Option Txt
  | .single a => some a
  | _ => none

/-- The locator argument of a multi-element lookup. -/
def multiArg? : Lookup → Option Txt
  | .multi a => some a
  | _ => none

/-- Well-formedness of a literal locator argument: non-empty, free of
quote characters (the regex capture class `[^"\']+` requires this), and
not containing the anchor tokens of the patterns. -/
def wfArg (arg : Txt) : Prop :=
  arg ≠ [] ∧ (∀ c ∈ arg, ¬ (isQuote c = true)) ∧
    containsSub ("find_element".toList) arg = false ∧
    containsSub ("By.XPATH,".toList) arg = false

instance (arg : Txt) : Decidable (wfArg arg) := by
  unfold wfArg; infer_instance

/-! ## Response Normalizer (`analyze_and_map_selectors`, lines 134–148)

The source strips code fences with `re.sub(r'```json\s*', '', _)` and
`re.sub(r'```\s*', '', _)`, strips whitespace, and runs `json.loads`
inside try/except, returning `None` on failure. `json.loads` is embedded
as a total fuel-based recursive-descent parser over `List Char`. -/

/-- JSON values as produced by parsing. A number is kept as its raw
lexeme: the pipeline never inspects numeric values. Object member order
is kept as parsed. -/
inductive J where
  | null : J
  | bool (b : Bool) : J
  | num (lexeme : Txt) : J
  | str (s : Txt) : J
  | arr (xs : List J) : J
  | obj (kvs : List (Txt × J)) : J

/-- Value of one hexadecimal digit, both cases accepted as by
`json.loads`. -/
def hexVal (c : Char) : Option Nat :=
  if '0' ≤ c ∧ c ≤ '9' then some (c.toNat - 48)
  else if 'a' ≤ c ∧ c ≤ 'f' then some (c.toNat - 87)
  else if 'A' ≤ c ∧ c ≤ 'F' then some (c.toNat - 55)
  else none

/-- Fuel-driven reader of a JSON string body (after the opening quote):
handles the two-character escapes, `\uXXXX` with surrogate-pair
combination, and rejects raw control characters as the strict
`json.loads` does. A lone surrogate is rejected (a Lean `Char` cannot
hold one; no input of this development produces one). -/
def pStrAux : Nat → Txt → Option (Txt × Txt)
  | 0, _ => none
  | fuel + 1, t =>
    match t with
    | [] => none
    | c :: r =>
      if c = '"' then some ([], r)
      else if c = '\\' then
        match r with
        | [] => none
        | e :: r1 =>
          if e = '"' then (pStrAux fuel r1).map (fun p => ('"' :: p.1, p.2))
          else if e = '\\' then (pStrAux fuel r1).map (fun p => ('\\' :: p.1, p.2))
          else if e = '/' then (pStrAux fuel r1).map (fun p => ('/' :: p.1, p.2))
          else if e = 'b' then (pStrAux fuel r1).map (fun p => (Char.ofNat 8 :: p.1, p.2))
          else if e = 'f' then (pStrAux fuel r1).map (fun p => (Char.ofNat 12 :: p.1, p.2))
          else if e = 'n' then (pStrAux fuel r1).map (fun p => ('\n' :: p.1, p.2))
          else if e = 'r' then (pStrAux fuel r1).map (fun p => ('\r' :: p.1, p.2))
          else if e = 't' then (pStrAux fuel r1).map (fun p => ('\t' :: p.1, p.2))
          else if e = 'u' then
            match r1 with
            | h1 :: h2 :: h3 :: h4 :: r2 =>
              match hexVal h1, hexVal h2, hexVal h3, hexVal h4 with
              | some a, some b, some c, some d =>
                let n := ((a * 16 + b) * 16 + c) * 16 + d
                if 55296 ≤ n ∧ n < 56320 then
                  match r2 with
                  | b1 :: b2 :: g1 :: g2 :: g3 :: g4 :: r3 =>
                    if b1 = '\\' ∧ b2 = 'u' then
                      match hexVal g1, hexVal g2, hexVal g3, hexVal g4 with
                      | some a2, some b2, some c2, some d2 =>
                        let m := ((a2 * 16 + b2) * 16 + c2) * 16 + d2
                        if 56320 ≤ m ∧ m < 57344 then
                          (pStrAux fuel r3).map
                            (fun p =>
                              (Char.ofNat
                                  (65536 + (n - 55296) * 1024 + (m - 56320)) :: p.1,
                                p.2))
                        else none
                      | _, _, _, _ => none
                    else none
                  | _ => none
                else if 56320 ≤ n ∧ n < 57344 then none
                else (pStrAux fuel r2).map (fun p => (Char.ofNat n :: p.1, p.2))
              | _, _, _, _ => none
            | _ => none
          else none
      else if c.toNat < 32 then none
      else (pStrAux fuel r).map (fun p => (c :: p.1, p.2))

/-- Optional fractional part `(\.\d+)?` of the JSON number grammar. -/
def pFrac (t : Txt) : Txt × Txt :=
  match t with
  | '.' :: r =>
    match r.takeWhile Char.isDigit with
    | [] => ([], t)
    | ds => ('.' :: ds, r.drop ds.length)
  | _ => ([], t)

/-- Optional exponent part `([eE][-+]?\d+)?` of the JSON number
grammar. -/
def pExp (t : Txt) : Txt × Txt :=
  match t with
  | e :: r =>
    if e = 'e' ∨ e = 'E' then
      let sr : Txt × Txt :=
        match r with
        | '+' :: r' => (['+'], r')
        | '-' :: r' => (['-'], r')
        | _ => ([], r)
      match sr.2.takeWhile Char.isDigit with
      | [] => ([], t)
      | ds => (e :: sr.1 ++ ds, sr.2.drop ds.length)
    else ([], t)
  | [] => ([], t)

/-- JSON number (plus the `NaN`/`Infinity`/`-Infinity` constants that
`json.loads` accepts by default), returned as its lexeme. -/
def pNum (t : Txt) : Option (Txt × Txt) :=
  if ("NaN".toList).isPrefixOf t then some ("NaN".toList, t.drop 3)
  else if ("Infinity".toList).isPrefixOf t then some ("Infinity".toList, t.drop 8)
  else if ("-Infinity".toList).isPrefixOf t then some ("-Infinity".toList, t.drop 9)
  else
    let st : Txt × Txt :=
      match t with
      | c :: r => if c = '-' then (['-'], r) else ([], t)
      | [] => ([], t)
    match st.2 with
    | c :: r =>
      if c = '0' then
        let fr := pFrac r
        let ex := pExp fr.2
        some (st.1 ++ '0' :: fr.1 ++ ex.1, ex.2)
      else if c.isDigit then
        let ds := r.takeWhile Char.isDigit
        let r2 := r.drop ds.length
        let fr := pFrac r2
        let ex := pExp fr.2
        some (st.1 ++ c :: ds ++ fr.1 ++ ex.1, ex.2)
      else none
    | [] => none

mutual

/-- Fuel-driven JSON value parser (the embedding of `json.loads`'s
scanner): skips leading whitespace, then dispatches on the first
character. -/
def pVal : Nat → Txt → Option (J × Txt)
  | 0, _ => none
  | fuel + 1, t =>
    let t1 := t.dropWhile jsonWs
    match t1 with
    | '{' :: r =>
      (match r.dropWhile jsonWs with
       | '}' :: r2 => some (J.obj [], r2)
       | r1 => (pMembers fuel r1).map (fun p => (J.obj p.1, p.2)))
    | '[' :: r =>
      (match r.dropWhile jsonWs with
       | ']' :: r2 => some (J.arr [], r2)
       | r1 => (pElems fuel r1).map (fun p => (J.arr p.1, p.2)))
    | '"' :: r => (pStrAux (r.length + 1) r).map (fun p => (J.str p.1, p.2))
    | _ =>
      if ("null".toList).isPrefixOf t1 then some (J.null, t1.drop 4)
      else if ("true".toList).isPrefixOf t1 then some (J.bool true, t1.drop 4)
      else if ("false".toList).isPrefixOf t1 then some (J.bool false, t1.drop 5)
      else (pNum t1).map (fun p => (J.num p.1, p.2))

/-- One or more `"key": value` members followed by `}`; the input starts
at a key (whitespace already skipped). -/
def pMembers : Nat → Txt → Option (List (Txt × J) × Txt)
  | 0, _ => none
  | fuel + 1, t =>
    match t with
    | '"' :: r =>
      (match pStrAux (r.length + 1) r with
       | some (k, r1) =>
         (match r1.dropWhile jsonWs with
          | ':' :: r2 =>
            (match pVal fuel r2 with
             | some (v, r3) =>
               (match r3.dropWhile jsonWs with
                | ',' :: r4 =>
                  (pMembers fuel (r4.dropWhile jsonWs)).map
                    (fun p => ((k, v) :: p.1, p.2))
                | '}' :: r4 => some ([(k, v)], r4)
                | _ => none)
             | none => none)
          | _ => none)
       | none => none)
    | _ => none

/-- One or more array elements followed by `]`. -/
def pElems : Nat → Txt → Option (List J × Txt)
  | 0, _ => none
  | fuel + 1, t =>
    match pVal fuel t with
    | some (v, r) =>
      (match r.dropWhile jsonWs with
       | ',' :: r1 => (pElems fuel r1).map (fun p => (v :: p.1, p.2))
       | ']' :: r1 => some ([v], r1)
       | _ => none)
    | none => none

end

/-- The embedding of `json.loads`: parse one value and require that only
whitespace remains. -/
def jsonLoads (t : Txt) : Option J :=
  let t1 := t.dropWhile jsonWs
  match pVal (t1.length + 1) t1 with
  | some (v, rest) => if (rest.dropWhile jsonWs).isEmpty then some v else none
  | none => none

/-- Fuel-driven global `re.sub(lit + '\s*', '', t)` for a literal `lit`:
each leftmost non-overlapping match of the literal followed by greedy
whitespace is removed. -/
def subFenceAux (lit : Txt) : Nat → Txt → Txt
  | 0, t => t
  | _ + 1, [] => []
  | fuel + 1, c :: cs =>
    if lit.isPrefixOf (c :: cs) then
      subFenceAux lit fuel (((c :: cs).drop lit.length).dropWhile pySpace)
    else c :: subFenceAux lit fuel cs

/-- Global `re.sub(lit + '\s*', '', t)`. -/
def subFence (lit t : Txt) : Txt := subFenceAux lit t.length t

/-- The Response Normalizer of `analyze_and_map_selectors`: the raw
response text (the prompt construction and the network call are
abstracted into this argument) is fence-stripped twice, stripped, and
parsed; a parse failure is caught and becomes `none`. -/
def analyze_and_map_selectors (response_text : Txt) : Option J :=
  jsonLoads (pyStrip (subFence ("```".toList) (subFence ("```json".toList) response_text)))

/-! ## Serialization of a Mapping Set (for the round-trip claim)

Modelled from the spec: "a structured Mapping Set serialized to text".
The serializer below renders the Mapping Set as standard JSON text with
the customary `", "`/`": "` separators, escaping only the characters
JSON requires (quote, backslash, control characters). -/

/-- The lowercase hexadecimal digit for a value below 16. -/
def hexDigit (n : Nat) : Char :=
  if n < 10 then Char.ofNat (48 + n) else Char.ofNat (87 + n)

/-- JSON escape of one character (quote, backslash, the short control
escapes, `\u00XX` for other control characters, everything else
verbatim). -/
def escChar (c : Char) : Txt :=
  if c = '"' then ['\\', '"']
  else if c = '\\' then ['\\', '\\']
  else if c = '\n' then ['\\', 'n']
  else if c = '\t' then ['\\', 't']
  else if c = '\r' then ['\\', 'r']
  else if c = Char.ofNat 8 then ['\\', 'b']
  else if c = Char.ofNat 12 then ['\\', 'f']
  else if c.toNat < 32 then
    ['\\', 'u', '0', '0', hexDigit (c.toNat / 16), hexDigit (c.toNat % 16)]
  else [c]

/-- JSON escape of a string body. -/
def escStr (s : Txt) : Txt := (s.map escChar).flatten

/-- A JSON string literal. -/
def printStr (s : Txt) : Txt := '"' :: escStr s ++ ['"']

/-- The key/value pairs present on one serialized mapping entry, in the
prompt's field order; absent fields are omitted. -/
def entryKvs (e : MappingEntry) : List (Txt × Txt) :=
  (match e.broken_selector with
   | some v => [("broken_selector".toList, v)] | none => []) ++
  (match e.playwright_equivalent with
   | some v => [("playwright_equivalent".toList, v)] | none => []) ++
  (match e.suggested_xpath with
   | some v => [("suggested_xpath".toList, v)] | none => []) ++
  (match e.suggested_css with
   | some v => [("suggested_css".toList, v)] | none => []) ++
  (match e.reasoning with
   | some v => [("reasoning".toList, v)] | none => [])

/-- A JSON object all of whose member values are strings. -/
def printStrObj (kvs : List (Txt × Txt)) : Txt :=
  '{' :: List.intercalate (", ".toList)
    (kvs.map (fun kv => printStr kv.1 ++ ':' :: ' ' :: printStr kv.2)) ++ ['}']

/-- The serialized `mappings` array. -/
def printEntryList (es : List MappingEntry) : Txt :=
  '[' :: List.intercalate (", ".toList)
    (es.map (fun e => printStrObj (entryKvs e))) ++ [']']

/-- The serialized `general_recommendations` array. -/
def printStrList (ss : List Txt) : Txt :=
  '[' :: List.intercalate (", ".toList) (ss.map printStr) ++ [']']

/-- Modelled from the spec: serialization of a Mapping Set to JSON
text. -/
def serializeMS (ms : MappingDict) : Txt :=
  '{' :: List.intercalate (", ".toList)
    ((ms.mappings.toList.map
        (fun es => printStr ("mappings".toList) ++ ':' :: ' ' :: printEntryList es)) ++
     (ms.general_recommendations.toList.map
        (fun rs =>
          printStr ("general_recommendations".toList) ++ ':' :: ' ' :: printStrList rs))) ++
  ['}']

/-- The JSON value a serialized Mapping Set denotes. -/
def entryJson (e : MappingEntry) : J :=
  J.obj ((entryKvs e).map (fun kv => (kv.1, J.str kv.2)))

/-- The JSON value a serialized Mapping Set denotes (top level). -/
def msToJson (ms : MappingDict) : J :=
  J.obj
    ((ms.mappings.toList.map
        (fun es => ("mappings".toList, J.arr (es.map entryJson)))) ++
     (ms.general_recommendations.toList.map
        (fun rs => ("general_recommendations".toList, J.arr (rs.map J.str)))))

/-- First-match association lookup among parsed object members. -/
def jLookup (k : Txt) : List (Txt × J) → Option J
  | [] => none
  | kv :: rest => if kv.1 = k then some kv.2 else jLookup k rest

/-- View a JSON value as a string. -/
def asStr : J → Option Txt
  | .str s => some s
  | _ => none

/-- Decode one mapping entry from a parsed JSON object; a field that is
absent (or not a string) is recorded as absent, as the source's
default-valued lookups treat it. -/
def entryFromJson : J → Option MappingEntry
  | .obj kvs =>
    some
      { broken_selector := (jLookup ("broken_selector".toList) kvs).bind asStr
        playwright_equivalent := (jLookup ("playwright_equivalent".toList) kvs).bind asStr
        suggested_xpath := (jLookup ("suggested_xpath".toList) kvs).bind asStr
        suggested_css := (jLookup ("suggested_css".toList) kvs).bind asStr
        reasoning := (jLookup ("reasoning".toList) kvs).bind asStr }
  | _ => none

/-- View a JSON value as a list of mapping entries. -/
def asEntryList : J → Option (List MappingEntry)
  | .arr xs => xs.mapM entryFromJson
  | _ => none

/-- View a JSON value as a list of strings. -/
def asStrList : J → Option (List Txt)
  | .arr xs => xs.mapM asStr
  | _ => none

/-- Decode a Mapping Set from a parsed JSON value. -/
def msFromJson : J → Option MappingDict
  | .obj kvs =>
    some
      { mappings := (jLookup ("mappings".toList) kvs).bind asEntryList
        general_recommendations :=
          (jLookup ("general_recommendations".toList) kvs).bind asStrList }
  | _ => none

/-- No backtick character occurs in `s`. -/
def noBtB (s : Txt) : Bool := !(s.contains btChar)

/-- No backtick occurs in any present field of the entry. -/
def entryNoBt (e : MappingEntry) : Bool := (entryKvs e).all (fun kv => noBtB kv.2)

/-- No backtick occurs in any field or recommendation of the Mapping
Set. -/
def msNoBt (ms : MappingDict) : Bool :=
  (ms.mappings.getD []).all entryNoBt &&
    (ms.general_recommendations.getD []).all noBtB

/-! ## Report Builder (`generate_report`) -/

/-- The literal `N/A` placeholder. -/
def naTxt : Txt := "N/A".toList

/-- `mapping.get(key, 'N/A')`. -/
def fieldOrNA (f : Option Txt) : Txt := f.getD naTxt

/-- Python truthiness of `mapping.get('suggested_css')`. -/
def cssTruthy (m : MappingEntry) : Bool :=
  match m.suggested_css with
  | some s => !s.isEmpty
  | none => false

/-- Eighty dashes. -/
def dash80 : Txt := List.replicate 80 '-'

/-- Eighty equals signs. -/
def eq80 : Txt := List.replicate 80 '='

/-- The report lines appended for the `i`-th mapping entry. -/
def renderBlock (i : Nat) (m : MappingEntry) : List Txt :=
  ['\n' :: ((Nat.repr i).toList ++ ". SELECTOR MAPPING".toList),
   dash80,
   "Broken XPath:      ".toList ++ fieldOrNA m.broken_selector,
   "Playwright Equiv:  ".toList ++ fieldOrNA m.playwright_equivalent,
   "Suggested XPath:   ".toList ++ fieldOrNA m.suggested_xpath] ++
  (if cssTruthy m then ["Alternative CSS:   ".toList ++ m.suggested_css.getD []] else []) ++
  ['\n' :: ("Reasoning: ".toList ++ fieldOrNA m.reasoning),
   []]

/-- The list of report lines `generate_report` accumulates before
joining them with newlines. The `mappings` argument is the parsed
response (`none` is Python `None`); a bare `if mappings and KEY in
mappings` is truthiness of the dict plus key presence, which on this
two-key shape is exactly presence of the respective key. -/
def generate_report_lines (mappings : Option MappingDict) : List Txt :=
  [eq80, "SELENIUM SELECTOR FIX REPORT".toList, eq80, []] ++
  (match mappings with
   | none => []
   | some ms =>
     (match ms.mappings with
      | none => []
      | some es =>
        ["Total Selectors Analyzed: ".toList ++ (Nat.repr es.length).toList, [], dash80] ++
        ((es.enumFrom 1).map (fun p => renderBlock p.1 p.2)).flatten) ++
     (match ms.general_recommendations with
      | none => []
      | some rs =>
        ('\n' :: eq80) :: "GENERAL RECOMMENDATIONS".toList :: eq80 ::
          rs.map (fun r => "• ".toList ++ r)))

/-- `generate_report`: returns the report text, and models the optional
whole-file write as the pair of path and written text. -/
def generate_report (mappings : Option MappingDict) (output_file : Option Txt) :
    Txt × Option (Txt × Txt) :=
  let text := List.intercalate ['\n'] (generate_report_lines mappings)
  (text, output_file.map (fun p => (p, text)))

/-! ## Mapping Requester (`ollama_chat`) -/

/-- The observable part of the HTTP response `requests.post` produces:
the status code, the body text, and the value of
`response.json().get("response", "")` when the body parses as JSON
(`none` models `.json()` raising). -/
structure OllamaHttpResponse where
  status_code : Nat
  text : Txt
  jsonResponseField : Option Txt

/-- `ollama_chat` as a function of the outcome of its one network call:
a transport exception (`Except.error`) or a non-200 status degrade to
the empty string; a 200 response yields the stripped `response` field,
with a body that fails to parse as JSON also degrading to the empty
string through the same `except` clause. -/
def ollama_chat (outcome : Except Txt OllamaHttpResponse) : Txt :=
  match outcome with
  | .error _ => []
  | .ok r =>
    if r.status_code = 200 then
      match r.jsonResponseField with
      | some s => pyStrip s
      | none => []
    else []

/-! ## Concrete values used by the claims -/

/-- The broken selector of the Patcher-correctness claim. -/
def brokenX : Txt := "/html/body/div[1]/input".toList

/-- The suggested replacement of the Patcher-correctness claim,
`//input[@id='user']`. -/
def suggX : Txt :=
  "//input[@id=".toList ++ '\'' :: "user".toList ++ '\'' :: "]".toList

/-- The single mapping entry of the Patcher-correctness claim. -/
def c1entry : MappingEntry :=
  { broken_selector := some brokenX
    playwright_equivalent := none
    suggested_xpath := some suggX
    suggested_css := none
    reasoning := none }

/-- The empty Mapping Set: both sequences present and empty. -/
def emptyMappingDict : MappingDict :=
  { mappings := some []
    general_recommendations := some [] }

/-- Parser fuel sufficient for the serialized form of a Mapping Set,
by the shape of its two optional sequences. -/
def serFuelNeed (ms : MappingDict) : Nat :=
  match ms.mappings, ms.general_recommendations with
  | none, none => 1
  | some es, none => es.length + 10
  | none, some rs => rs.length + 10
  | some es, some rs => es.length + rs.length + 12

/-- Characters that can begin a JSON value accepted by `json.loads`: an
object, an array, a string, `null`, `true`, `false`, `NaN`, `Infinity`,
or a number. -/
def jsonStarter (c : Char) : Bool :=
  c = '{' || c = '[' || c = '"' || c = 'n' || c = 't' || c = 'f' ||
    c = 'N' || c = 'I' || c = '-' || c.isDigit

/-- The text's first character (if any) cannot begin a JSON value. -/
def headNoStarter (t : Txt) : Bool :=
  match t.head? with
  | some c => !jsonStarter c
  | none => true

/-- A fully-populated mapping entry for the round-trip claim. -/
def c4entry : MappingEntry :=
  { broken_selector := some brokenX
    playwright_equivalent := some ("#user".toList)
    suggested_xpath := some suggX
    suggested_css := some ("input#user".toList)
    reasoning := some ("id attributes are stable".toList) }

/-- A backtick-free Mapping Set exercising both sequences. -/
def c4ms : MappingDict :=
  { mappings := some [c4entry]
    general_recommendations := some ["Prefer data attributes".toList] }

/-- A Mapping Set whose only recommendation is a bare markdown fence
(three backticks); its serialization is corrupted by the fence-stripping
substitutions before parsing. -/
def c4msBad : MappingDict :=
  { mappings := some []
    general_recommendations := some [[btChar, btChar, btChar]] }

/-- A plain-prose model response without any structured-data markers. -/
def c5prose : Txt := "The model was unable to produce a mapping.".toList

/-! # Theorems

First a group of generic lemmas about scanning, then the claims in
order. -/

theorem takeWhile_append_stop {p : Char → Bool} {l1 : Txt} (h : ∀ a ∈ l1, p a = true)
    {b : Char} (hb : p b = false) (l2 : Txt) :
    (l1 ++ b :: l2).takeWhile p = l1 := by
  induction l1 with
  | nil => simp [List.takeWhile, hb]
  | cons x xs ih => simp_all [List.takeWhile]

theorem dropWhile_append_stop {p : Char → Bool} {l1 : Txt} (h : ∀ a ∈ l1, p a = true)
    {b : Char} (hb : p b = false) (l2 : Txt) :
    (l1 ++ b :: l2).dropWhile p = b :: l2 := by
  induction l1 with
  | nil => simp [List.dropWhile, hb]
  | cons x xs ih => simp_all [List.dropWhile]

theorem not_isPrefixOf_append_cons {lit x : Txt} {c : Char} {z : Txt}
    (h1 : ¬ lit <+: x) (h2 : c ∉ lit) : lit.isPrefixOf (x ++ c :: z) = false := by
  by_contra hcon
  rw [Bool.not_eq_false, List.isPrefixOf_iff_prefix] at hcon
  rcases List.prefix_or_prefix_of_prefix hcon (List.prefix_append x (c :: z)) with hp | hp
  · exact h1 hp
  · obtain ⟨r, hr⟩ := hp
    cases r with
    | nil => exact h1 (by simp [← hr])
    | cons r0 rs =>
      subst hr
      rw [List.prefix_append_right_inj, List.cons_prefix_cons] at hcon
      exact h2 (by simp [hcon.1])

theorem containsSub_false_iff {pat t : Txt} :
    containsSub pat t = false ↔ ∀ i, pat.isPrefixOf (t.drop i) = false := by
  induction t with
  | nil =>
    simp only [containsSub, List.drop_nil]
    cases pat <;> simp [List.isPrefixOf]
  | cons c cs ih =>
    simp only [containsSub, Bool.or_eq_false_iff, ih]
    constructor
    · rintro ⟨h0, h⟩ i
      cases i with
      | zero => exact h0
      | succ j => exact h j
    · intro h
      exact ⟨h 0, fun i => h (i + 1)⟩

theorem mem_occs_iff {pat t : Txt} {i : Nat} :
    i ∈ occs pat t ↔ pat.isPrefixOf (t.drop i) = true ∧ i ≤ t.length := by
  induction t generalizing i with
  | nil =>
    simp only [occs, List.drop_nil, List.length_nil, Nat.le_zero]
    cases pat with
    | nil => simp [List.isPrefixOf]
    | cons p ps => simp [List.isPrefixOf]
  | cons c cs ih =>
    simp only [occs, List.mem_append, List.mem_map]
    cases i with
    | zero =>
      simp only [List.drop_zero, List.length_cons]
      constructor
      · rintro (h | ⟨j, _, hj⟩)
        · by_cases hp : pat.isPrefixOf (c :: cs) = true
          · exact ⟨hp, Nat.zero_le _⟩
          · simp [hp] at h
        · omega
      · rintro ⟨hp, -⟩
        left; simp [hp]
    | succ j =>
      simp only [List.drop_succ_cons, List.length_cons]
      constructor
      · rintro (h | ⟨k, hk, hkj⟩)
        · by_cases hp : pat.isPrefixOf (c :: cs) = true <;> simp [hp] at h
        · obtain rfl : k = j := by omega
          exact ⟨(ih.mp hk).1, by have := (ih.mp hk).2; omega⟩
      · rintro ⟨hp, hle⟩
        right
        exact ⟨j, ih.mpr ⟨hp, by omega⟩, rfl⟩

theorem matchHead_nil {X : Txt} : matchHead X [] = false := rfl

theorem matchHead_drop_succ {X t : Txt} {i : Nat}
    (h : matchHead X (t.drop i) = true) :
    X.isPrefixOf (t.drop (i + 1)) = true := by
  have hi : i < t.length := by
    by_contra hc
    rw [List.drop_eq_nil_of_le (by omega)] at h
    exact absurd h (by simp [matchHead_nil])
  rw [List.drop_eq_getElem_cons hi] at h
  simp only [matchHead, Bool.and_eq_true] at h
  exact h.1.2

theorem hasQuotedOcc_false_iff {X t : Txt} :
    hasQuotedOcc X t = false ↔ ∀ i, matchHead X (t.drop i) = false := by
  induction t with
  | nil =>
    constructor
    · intro _ i
      rw [List.drop_nil]
      exact matchHead_nil
    · intro _
      rfl
  | cons c cs ih =>
    simp only [hasQuotedOcc, Bool.or_eq_false_iff, ih]
    constructor
    · rintro ⟨h0, h⟩ i
      cases i with
      | zero => exact h0
      | succ j => exact h j
    · intro h
      exact ⟨h 0, fun i => h (i + 1)⟩

theorem subQAux_id_of_noMatch {X S t : Txt} (h : hasQuotedOcc X t = false)
    (fuel : Nat) : subQAux X S fuel t = t := by
  induction t generalizing fuel with
  | nil => cases fuel <;> rfl
  | cons c cs ih =>
    cases fuel with
    | zero => rfl
    | succ f =>
      simp only [hasQuotedOcc, Bool.or_eq_false_iff] at h
      simp [subQAux, h.1, ih h.2]

theorem subQAux_skip {X S : Txt} {u v : Txt}
    (h : ∀ i < u.length, matchHead X ((u ++ v).drop i) = false) :
    ∀ fuel, u.length ≤ fuel →
      subQAux X S fuel (u ++ v) = u ++ subQAux X S (fuel - u.length) v := by
  induction u with
  | nil => intro fuel _; simp
  | cons c u' ih =>
    intro fuel hf
    cases fuel with
    | zero => simp at hf
    | succ f =>
      have h0 : matchHead X (c :: (u' ++ v)) = false := by
        have := h 0 (by simp)
        simpa using this
      have ih' := ih (fun i hi => by
        have := h (i + 1) (by simpa using Nat.succ_lt_succ hi)
        simpa using this) f (by simpa using hf)
      rw [List.cons_append]
      have hstep : subQAux X S (f + 1) (c :: (u' ++ v)) =
          c :: subQAux X S f (u' ++ v) := by
        simp [subQAux, h0]
      rw [hstep, ih']
      simp [Nat.succ_sub_succ]

theorem subQAux_step {X S b : Txt} (fuel : Nat) :
    subQAux X S (fuel + 1) ('"' :: (X ++ '"' :: b)) =
      '"' :: (S ++ '"' :: subQAux X S fuel b) := by
  have hm : matchHead X ('"' :: (X ++ '"' :: b)) = true := by
    simp only [matchHead, Bool.and_eq_true]
    refine ⟨⟨by simp [isQuote], ?_⟩, ?_⟩
    · rw [List.isPrefixOf_iff_prefix]; exact List.prefix_append X _
    · rw [List.drop_left X ('"' :: b)]
      simp [isQuote]
  rw [subQAux, if_pos hm]
  have hdrop : (X ++ '"' :: b).drop (X.length + 1) = b := by
    have : X ++ '"' :: b = (X ++ ['"']) ++ b := by simp
    rw [this]
    have hlen : (X ++ ['"']).length = X.length + 1 := by simp
    rw [← hlen, List.drop_left]
  rw [hdrop]

theorem isPrefixOf_nil_of_ne {X : Txt} (hX : X ≠ []) : X.isPrefixOf [] = false := by
  cases X with
  | nil => exact absurd rfl hX
  | cons x xs => rfl

/-- The Patcher's substitution on a text with exactly one occurrence of
the broken selector, surrounded by double quotes. -/
theorem subQ_single_occ {X S a b : Txt}
    (hocc : ∀ i, X.isPrefixOf ((a ++ ('"' :: (X ++ '"' :: b))).drop i) = true →
      i = a.length + 1) :
    subQ X S (a ++ ('"' :: (X ++ '"' :: b))) = a ++ ('"' :: (S ++ '"' :: b)) := by
  have hassoc : a ++ ('"' :: (X ++ '"' :: b)) = (a ++ ('"' :: (X ++ ['"']))) ++ b := by
    simp
  have hprelen : (a ++ ('"' :: (X ++ ['"']))).length = a.length + X.length + 2 := by
    simp only [List.length_append, List.length_cons, List.length_nil]
    omega
  have hb : hasQuotedOcc X b = false := by
    rw [hasQuotedOcc_false_iff]
    intro i
    by_contra hm
    rw [Bool.not_eq_false] at hm
    have hpref := matchHead_drop_succ hm
    have htr : X.isPrefixOf
        ((a ++ ('"' :: (X ++ '"' :: b))).drop
          ((a ++ ('"' :: (X ++ ['"']))).length + (i + 1))) = true := by
      rw [hassoc, List.drop_append]
      exact hpref
    have := hocc _ htr
    rw [hprelen] at this
    omega
  have hskip : ∀ i < a.length,
      matchHead X ((a ++ ('"' :: (X ++ '"' :: b))).drop i) = false := by
    intro i hi
    by_contra hm
    rw [Bool.not_eq_false] at hm
    have := hocc (i + 1) (matchHead_drop_succ hm)
    omega
  rw [subQ,
    @subQAux_skip X S a ('"' :: (X ++ '"' :: b)) hskip _
      (by simp only [List.length_append]; omega)]
  have hfuel : (a ++ ('"' :: (X ++ '"' :: b))).length - a.length =
      (X.length + 1 + b.length) + 1 := by
    simp only [List.length_append, List.length_cons]
    omega
  rw [hfuel, subQAux_step, subQAux_id_of_noMatch hb]

/-- Claim C1 is refuted at this input: the text holds two occurrences of
the broken selector whose quotes interact (the first is preceded by a
single quote), the scan consumes the double quote that opens the
quoted occurrence, and the output is not the input with every
double-quoted occurrence replaced. -/
theorem c1_counterexample :
    containsSub ('"' :: brokenX ++ ['"'])
        ('\'' :: brokenX ++ '"' :: brokenX ++ ['"']) = true ∧
      update_selenium_code ('\'' :: brokenX ++ '"' :: brokenX ++ ['"']) [c1entry] ≠
        specReplaceQuoted brokenX suggX ('\'' :: brokenX ++ '"' :: brokenX ++ ['"']) := by
  constructor
  · decide
  · decide

/-- Claim C1 (amended): on any input text in which the broken selector
`/html/body/div[1]/input` occurs exactly once, that occurrence being
surrounded by double quotes, `update_selenium_code` with the single
claim entry replaces it by `//input[@id='user']` with the double quotes
preserved. -/
theorem c1_amended (a b : Txt)
    (h : occs brokenX (a ++ ('"' :: (brokenX ++ '"' :: b))) = [a.length + 1]) :
    update_selenium_code (a ++ ('"' :: (brokenX ++ '"' :: b))) [c1entry] =
      a ++ ('"' :: (suggX ++ '"' :: b)) := by
  have hocc : ∀ i,
      brokenX.isPrefixOf ((a ++ ('"' :: (brokenX ++ '"' :: b))).drop i) = true →
        i = a.length + 1 := by
    intro i hi
    have hil : i ≤ (a ++ ('"' :: (brokenX ++ '"' :: b))).length := by
      by_contra hc
      rw [List.drop_eq_nil_of_le (by omega)] at hi
      rw [isPrefixOf_nil_of_ne (by decide)] at hi
      exact absurd hi (by simp)
    have hmem : i ∈ occs brokenX (a ++ ('"' :: (brokenX ++ '"' :: b))) :=
      mem_occs_iff.mpr ⟨hi, hil⟩
    rw [h] at hmem
    simpa using hmem
  show List.foldl patchStep _ [c1entry] = _
  rw [List.foldl_cons, List.foldl_nil]
  have hstep : patchStep (a ++ ('"' :: (brokenX ++ '"' :: b))) c1entry =
      subQ brokenX suggX (a ++ ('"' :: (brokenX ++ '"' :: b))) := by
    simp only [patchStep, c1entry, Option.getD_some]
    rw [if_pos ⟨by decide, by decide⟩]
  rw [hstep, subQ_single_occ hocc]

/-- Witness for the amended claim C1 at a concrete text with a single
double-quoted occurrence of the broken selector. -/
theorem c1_amended_witness :
    occs brokenX ("u = ".toList ++ ('"' :: (brokenX ++ '"' :: ";".toList))) =
        ["u = ".toList.length + 1] ∧
      update_selenium_code
          ("u = ".toList ++ ('"' :: (brokenX ++ '"' :: ";".toList))) [c1entry] =
        "u = ".toList ++ ('"' :: (suggX ++ '"' :: ";".toList)) :=
  ⟨by decide, c1_amended _ _ (by decide)⟩

/-- Claim C8: if no entry's broken selector occurs in the text as a
quoted literal, `update_selenium_code` returns the text unchanged; being
a pure function of its input, it cannot mutate it. -/
theorem c8_patcher_noop (code : Txt) (mappings : List MappingEntry)
    (h : ∀ m ∈ mappings, hasQuotedOcc (m.broken_selector.getD []) code = false) :
    update_selenium_code code mappings = code := by
  induction mappings with
  | nil => rfl
  | cons m ms ih =>
    show List.foldl patchStep (patchStep code m) ms = code
    have hstep : patchStep code m = code := by
      simp only [patchStep]
      split
      · exact subQAux_id_of_noMatch (h m (List.mem_cons_self m ms)) _
      · rfl
    rw [hstep]
    exact ih fun m' hm' => h m' (List.mem_cons_of_mem _ hm')

/-- Witness for claim C8 at a concrete Selenium line and an entry whose
broken selector does not occur there. -/
theorem c8_patcher_noop_witness :
    (∀ m ∈ [({ broken_selector := some ("//old".toList)
               playwright_equivalent := none
               suggested_xpath := some ("//new".toList)
               suggested_css := none
               reasoning := none } : MappingEntry)],
        hasQuotedOcc (m.broken_selector.getD [])
          ("driver.find_element(By.XPATH, \"//a\")".toList) = false) ∧
      update_selenium_code ("driver.find_element(By.XPATH, \"//a\")".toList)
          [{ broken_selector := some ("//old".toList)
             playwright_equivalent := none
             suggested_xpath := some ("//new".toList)
             suggested_css := none
             reasoning := none }] =
        "driver.find_element(By.XPATH, \"//a\")".toList :=
  ⟨by decide, c8_patcher_noop _ _ (by decide)⟩

set_option maxRecDepth 8000 in
/-- Claim C3 is refuted on the empty Mapping Set: because the
`general_recommendations` key is present (with an empty list), the
source emits the recommendations section header even though there are no
recommendation strings, so the report does contain that header. -/
theorem c3_counterexample :
    containsSub ("GENERAL RECOMMENDATIONS".toList)
      (generate_report (some emptyMappingDict) none).1 = true := by
  decide

set_option maxRecDepth 8000 in
/-- Claim C3 (amended): on the empty Mapping Set the report is exactly
the banner, an entry count of 0 with its divider, no numbered blocks,
and the recommendations section header followed by no bullet lines. -/
theorem c3_empty_report :
    (generate_report (some emptyMappingDict) none).1 =
      eq80 ++ "\nSELENIUM SELECTOR FIX REPORT\n".toList ++ eq80 ++
        "\n\nTotal Selectors Analyzed: 0\n\n".toList ++ dash80 ++
        "\n\n".toList ++ eq80 ++ "\nGENERAL RECOMMENDATIONS\n".toList ++ eq80 := by
  decide

/-- Claim C6 is refuted at an entry without a `suggested_css` field: the
numbered block contains no `Alternative CSS` line at all, rather than
one with the `N/A` placeholder. -/
theorem c6_counterexample :
    ("Alternative CSS:   ".toList ++ naTxt) ∉
      renderBlock 1
        { broken_selector := some ("//a".toList)
          playwright_equivalent := some ("//b".toList)
          suggested_xpath := some ("//c".toList)
          suggested_css := none
          reasoning := some ("r".toList) } := by
  decide

/-- Claim C6 (amended): every numbered block shows the broken selector,
the equivalent selector, the suggested replacement and the rationale,
substituting `N/A` for a missing field; the alternative-CSS line appears
exactly when that field is present and non-empty, and is omitted
entirely otherwise. -/
theorem c6_block_fields (i : Nat) (m : MappingEntry) :
    ("Broken XPath:      ".toList ++ fieldOrNA m.broken_selector) ∈ renderBlock i m ∧
    ("Playwright Equiv:  ".toList ++ fieldOrNA m.playwright_equivalent) ∈ renderBlock i m ∧
    ("Suggested XPath:   ".toList ++ fieldOrNA m.suggested_xpath) ∈ renderBlock i m ∧
    ('\n' :: ("Reasoning: ".toList ++ fieldOrNA m.reasoning)) ∈ renderBlock i m ∧
    (cssTruthy m = true →
      ("Alternative CSS:   ".toList ++ m.suggested_css.getD []) ∈ renderBlock i m) ∧
    (cssTruthy m = false →
      ∀ s, ("Alternative CSS:   ".toList ++ s) ∉ renderBlock i m) := by
  refine ⟨?_, ?_, ?_, ?_, ?_, ?_⟩
  · simp [renderBlock]
  · simp [renderBlock]
  · simp [renderBlock]
  · simp [renderBlock]
  · intro h; simp [renderBlock, h]
  · intro h s hmem
    simp only [renderBlock, h, Bool.false_eq_true, if_false, List.nil_append,
      List.mem_cons, List.mem_append, List.mem_singleton, List.not_mem_nil,
      or_false] at hmem
    rcases hmem with (h1 | h1 | h1 | h1 | h1) | h1 | h1
    · exact absurd (show (some 'A' : Option Char) = some '\n' from congrArg List.head? h1)
        (by decide)
    · exact absurd (show (some 'A' : Option Char) = some '-' from congrArg List.head? h1)
        (by decide)
    · exact absurd (show (some 'A' : Option Char) = some 'B' from congrArg List.head? h1)
        (by decide)
    · exact absurd (show (some 'A' : Option Char) = some 'P' from congrArg List.head? h1)
        (by decide)
    · exact absurd (show (some 'A' : Option Char) = some 'S' from congrArg List.head? h1)
        (by decide)
    · exact absurd (show (some 'A' : Option Char) = some '\n' from congrArg List.head? h1)
        (by decide)
    · exact absurd (show (some 'A' : Option Char) = none from congrArg List.head? h1)
        (by decide)

set_option maxRecDepth 8000 in
/-- Claim C10: on the `None` result, `generate_report` produces the
banner-only report text (no entry count, no blocks, no recommendations
section), and writes that same text when an output path is given. -/
theorem c10_report_on_none (output_file : Option Txt) :
    generate_report none output_file =
      (eq80 ++ "\nSELENIUM SELECTOR FIX REPORT\n".toList ++ eq80 ++ "\n".toList,
       output_file.map
         (fun p => (p, eq80 ++ "\nSELENIUM SELECTOR FIX REPORT\n".toList ++ eq80 ++ "\n".toList))) := by
  have htext : List.intercalate ['\n'] (generate_report_lines none) =
      eq80 ++ "\nSELENIUM SELECTOR FIX REPORT\n".toList ++ eq80 ++ "\n".toList := by
    decide
  unfold generate_report
  rw [htext]

/-- Claim C7: if the network call raises (transport failure) or returns
any non-200 status, `ollama_chat` returns the empty string; the
embedding is total, so nothing escapes this boundary. -/
theorem c7_ollama_failure (outcome : Except Txt OllamaHttpResponse)
    (h : (∃ e, outcome = Except.error e) ∨
      (∃ r, outcome = Except.ok r ∧ r.status_code ≠ 200)) :
    ollama_chat outcome = [] := by
  rcases h with ⟨e, rfl⟩ | ⟨r, rfl, hr⟩
  · rfl
  · simp [ollama_chat, hr]

/-- Witness for claim C7 at a concrete transport failure. -/
theorem c7_ollama_failure_witness :
    ((∃ e, (Except.error ("refused".toList) : Except Txt OllamaHttpResponse) =
        Except.error e) ∨
      (∃ r, (Except.error ("refused".toList) : Except Txt OllamaHttpResponse) =
        Except.ok r ∧ r.status_code ≠ 200)) ∧
      ollama_chat (Except.error ("refused".toList)) = [] :=
  ⟨Or.inl ⟨_, rfl⟩, c7_ollama_failure _ (Or.inl ⟨_, rfl⟩)⟩

/-! ## Extractor lemmas -/

theorem quoteCapTail_emit {arg : Txt} (hne : arg ≠ [])
    (hq : ∀ c ∈ arg, isQuote c = false) (z : Txt) :
    quoteCapTail ('"' :: (arg ++ '"' :: ')' :: z)) = some (arg, z) := by
  have hcap : (arg ++ '"' :: ')' :: z).takeWhile (fun c => !(isQuote c)) = arg :=
    takeWhile_append_stop (fun c hc => by rw [hq c hc]; rfl) (by rfl) _
  have hE : arg.isEmpty = false := by
    cases arg with
    | nil => exact absurd rfl hne
    | cons a as => rfl
  have h1 : isQuote '"' = true := rfl
  simp only [quoteCapTail, h1, if_true, hcap, hE, List.drop_left]
  simp [h1]

theorem quoteCapTail_lt {t cap rest : Txt} (h : quoteCapTail t = some (cap, rest)) :
    rest.length < t.length := by
  cases t with
  | nil => simp [quoteCapTail] at h
  | cons q1 r3 =>
    simp only [quoteCapTail] at h
    split at h
    · split at h
      · exact absurd h (by simp)
      · split at h
        · next q2 r4 heq =>
            split at h
            · simp only [Option.some.injEq, Prod.mk.injEq] at h
              obtain ⟨-, h2⟩ := h
              subst h2
              have hlen := congrArg List.length heq
              simp only [List.length_drop, List.length_cons] at hlen
              simp only [List.length_cons]
              omega
            · exact absurd h (by simp)
        · exact absurd h (by simp)
    · exact absurd h (by simp)

theorem findAll_nil (tryF : Txt → Option (Txt × Txt)) : findAll tryF [] = [] := rfl

theorem findAllAux_congr {tryF : Txt → Option (Txt × Txt)}
    (hc : ∀ t cap rest, tryF t = some (cap, rest) → rest.length < t.length) :
    ∀ fuel fuel' t, t.length ≤ fuel → t.length ≤ fuel' →
      findAllAux tryF fuel t = findAllAux tryF fuel' t := by
  intro fuel
  induction fuel with
  | zero =>
    intro fuel' t h _
    have : t = [] := List.length_eq_zero.mp (by omega)
    subst this
    cases fuel' <;> rfl
  | succ f ih =>
    intro fuel' t h h'
    cases t with
    | nil => cases fuel' <;> rfl
    | cons c cs =>
      cases fuel' with
      | zero => simp at h'
      | succ f' =>
        simp only [List.length_cons] at h h'
        cases htry : tryF (c :: cs) with
        | none =>
          simp only [findAllAux, htry]
          exact ih f' cs (by omega) (by omega)
        | some pr =>
          obtain ⟨cap, rest⟩ := pr
          have hlt := hc _ _ _ htry
          simp only [List.length_cons] at hlt
          simp only [findAllAux, htry]
          rw [ih f' rest (by omega) (by omega)]

theorem findAll_skip {tryF : Txt → Option (Txt × Txt)} {u v : Txt}
    (h : ∀ i < u.length, tryF ((u ++ v).drop i) = none) :
    findAll tryF (u ++ v) = findAll tryF v := by
  induction u with
  | nil => simp
  | cons c u' ih =>
    have h0 : tryF (c :: (u' ++ v)) = none := by
      have := h 0 (by simp)
      simpa using this
    show findAllAux tryF (c :: u' ++ v).length (c :: u' ++ v) = findAll tryF v
    have hlen : (c :: u' ++ v).length = (u' ++ v).length + 1 := by simp
    rw [hlen, List.cons_append, findAllAux, h0]
    exact ih fun i hi => by
      have := h (i + 1) (by simp only [List.length_cons]; omega)
      simpa using this

theorem findAll_emit {tryF : Txt → Option (Txt × Txt)}
    (hc : ∀ t cap rest, tryF t = some (cap, rest) → rest.length < t.length)
    {t cap rest : Txt} (h : tryF t = some (cap, rest)) :
    findAll tryF t = cap :: findAll tryF rest := by
  cases t with
  | nil =>
    have := hc _ _ _ h
    simp at this
  | cons c cs =>
    show findAllAux tryF (c :: cs).length (c :: cs) = _
    have hlt := hc _ _ _ h
    simp only [List.length_cons] at hlt
    rw [show (c :: cs).length = cs.length + 1 from rfl, findAllAux, h]
    show cap :: findAllAux tryF cs.length rest = cap :: findAll tryF rest
    congr 1
    show findAllAux tryF cs.length rest = findAllAux tryF rest.length rest
    exact findAllAux_congr hc cs.length rest.length rest (by omega) le_rfl

theorem length_dropWhile_le (p : Char → Bool) (l : Txt) :
    (l.dropWhile p).length ≤ l.length := by
  induction l with
  | nil => simp
  | cons c cs ih =>
    rw [List.dropWhile_cons]
    split
    · simp only [List.length_cons]; omega
    · simp

theorem p3try_lt (t cap rest : Txt) (h : p3try t = some (cap, rest)) :
    rest.length < t.length := by
  simp only [p3try] at h
  split at h
  · next hpre =>
      have hlt := quoteCapTail_lt h
      have h9 : 9 ≤ t.length := by
        have := (List.isPrefixOf_iff_prefix.mp hpre).length_le
        simpa using this
      have hd := length_dropWhile_le pySpace (t.drop 9)
      simp only [List.length_drop] at hd
      omega
  · exact absurd h (by simp)

theorem p1try_lt (t cap rest : Txt) (h : p1try t = some (cap, rest)) :
    rest.length < t.length := by
  simp only [p1try] at h
  split at h
  · next hpre =>
      have h13 : 13 ≤ t.length := by
        have := (List.isPrefixOf_iff_prefix.mp hpre).length_le
        simpa using this
      split at h
      · exact absurd h (by simp)
      · split at h
        · next r1 heq =>
            have hlt := quoteCapTail_lt h
            have hd := length_dropWhile_le pySpace r1
            have hlen := congrArg List.length heq
            simp only [List.length_drop, List.length_cons] at hlen
            omega
        · exact absurd h (by simp)
  · exact absurd h (by simp)

theorem p2try_lt (t cap rest : Txt) (h : p2try t = some (cap, rest)) :
    rest.length < t.length := by
  simp only [p2try] at h
  split at h
  · next hpre =>
      have h14 : 14 ≤ t.length := by
        have := (List.isPrefixOf_iff_prefix.mp hpre).length_le
        simpa using this
      split at h
      · exact absurd h (by simp)
      · split at h
        · next r1 heq =>
            have hlt := quoteCapTail_lt h
            have hd := length_dropWhile_le pySpace r1
            have hlen := congrArg List.length heq
            simp only [List.length_drop, List.length_cons] at hlen
            omega
        · exact absurd h (by simp)
  · exact absurd h (by simp)

theorem p1try_none_of_not_pre {t : Txt}
    (h : ("find_element(".toList).isPrefixOf t = false) : p1try t = none := by
  unfold p1try
  rw [if_neg (by intro hcon; rw [h] at hcon; exact Bool.noConfusion hcon)]

theorem p2try_none_of_not_pre {t : Txt}
    (h : ("find_elements(".toList).isPrefixOf t = false) : p2try t = none := by
  unfold p2try
  rw [if_neg (by intro hcon; rw [h] at hcon; exact Bool.noConfusion hcon)]

theorem wfArg_no_fe {arg : Txt} (hw : wfArg arg) {i : Nat} :
    ¬ ("find_element".toList <+: arg.drop i) := by
  intro hp
  have hfe := containsSub_false_iff.mp hw.2.2.1 i
  rw [← List.isPrefixOf_iff_prefix] at hp
  rw [hfe] at hp
  simp at hp

theorem p1try_skip_arg {arg : Txt} (hw : wfArg arg) (w : Txt) :
    ∀ i < arg.length, p1try ((arg ++ '"' :: w).drop i) = none := by
  intro i hi
  rw [List.drop_append_of_le_length (by omega)]
  apply p1try_none_of_not_pre
  apply not_isPrefixOf_append_cons
  · intro hp
    exact wfArg_no_fe hw (List.IsPrefix.trans (by decide) hp)
  · decide

theorem p2try_skip_arg {arg : Txt} (hw : wfArg arg) (w : Txt) :
    ∀ i < arg.length, p2try ((arg ++ '"' :: w).drop i) = none := by
  intro i hi
  rw [List.drop_append_of_le_length (by omega)]
  apply p2try_none_of_not_pre
  apply not_isPrefixOf_append_cons
  · intro hp
    exact wfArg_no_fe hw (List.IsPrefix.trans (by decide) hp)
  · decide

theorem findAll_skip_cons {tryF : Txt → Option (Txt × Txt)} {c : Char} {v : Txt}
    (h : tryF (c :: v) = none) : findAll tryF (c :: v) = findAll tryF v := by
  have := @findAll_skip tryF [c] v (fun i hi => by
    simp only [List.length_cons, List.length_nil] at hi
    interval_cases i
    simpa using h)
  simpa using this

theorem findAll_p3_skip13 (X : Txt) :
    findAll p3try ("find_element(".toList ++ X) = findAll p3try X := by
  apply findAll_skip
  intro i hi
  rw [show ("find_element(".toList).length = 13 from rfl] at hi
  interval_cases i <;> rfl

theorem findAll_p3_skip14 (X : Txt) :
    findAll p3try ("find_elements(".toList ++ X) = findAll p3try X := by
  apply findAll_skip
  intro i hi
  rw [show ("find_elements(".toList).length = 14 from rfl] at hi
  interval_cases i <;> rfl

theorem findAll_p1_skip14 (X : Txt) :
    findAll p1try ("find_elements(".toList ++ X) = findAll p1try X := by
  apply findAll_skip
  intro i hi
  rw [show ("find_elements(".toList).length = 14 from rfl] at hi
  interval_cases i <;> rfl

theorem findAll_p1_skip11 (X : Txt) :
    findAll p1try ("By.XPATH, \"".toList ++ X) = findAll p1try X := by
  apply findAll_skip
  intro i hi
  rw [show ("By.XPATH, \"".toList).length = 11 from rfl] at hi
  interval_cases i <;> rfl

theorem findAll_p2_skip13 (X : Txt) :
    findAll p2try ("find_element(".toList ++ X) = findAll p2try X := by
  apply findAll_skip
  intro i hi
  rw [show ("find_element(".toList).length = 13 from rfl] at hi
  interval_cases i <;> rfl

theorem findAll_p2_skip11 (X : Txt) :
    findAll p2try ("By.XPATH, \"".toList ++ X) = findAll p2try X := by
  apply findAll_skip
  intro i hi
  rw [show ("By.XPATH, \"".toList).length = 11 from rfl] at hi
  interval_cases i <;> rfl

theorem p3try_emit {arg : Txt} (hne : arg ≠ [])
    (hq : ∀ c ∈ arg, isQuote c = false) (z : Txt) :
    p3try ("By.XPATH, \"".toList ++ (arg ++ '"' :: ')' :: z)) = some (arg, z) := by
  have hstep : p3try ("By.XPATH, \"".toList ++ (arg ++ '"' :: ')' :: z)) =
      quoteCapTail ('"' :: (arg ++ '"' :: ')' :: z)) := rfl
  rw [hstep]
  exact quoteCapTail_emit hne hq z

theorem p1try_emit {arg : Txt} (hne : arg ≠ [])
    (hq : ∀ c ∈ arg, isQuote c = false) (z : Txt) :
    p1try ("find_element(".toList ++
        ("By.XPATH, \"".toList ++ (arg ++ '"' :: ')' :: z))) = some (arg, z) := by
  have hstep : p1try ("find_element(".toList ++
        ("By.XPATH, \"".toList ++ (arg ++ '"' :: ')' :: z))) =
      quoteCapTail ('"' :: (arg ++ '"' :: ')' :: z)) := rfl
  rw [hstep]
  exact quoteCapTail_emit hne hq z

theorem p2try_emit {arg : Txt} (hne : arg ≠ [])
    (hq : ∀ c ∈ arg, isQuote c = false) (z : Txt) :
    p2try ("find_elements(".toList ++
        ("By.XPATH, \"".toList ++ (arg ++ '"' :: ')' :: z))) = some (arg, z) := by
  have hstep : p2try ("find_elements(".toList ++
        ("By.XPATH, \"".toList ++ (arg ++ '"' :: ')' :: z))) =
      quoteCapTail ('"' :: (arg ++ '"' :: ')' :: z)) := rfl
  rw [hstep]
  exact quoteCapTail_emit hne hq z

theorem isQuote_false_of_wf {arg : Txt} (hw : wfArg arg) :
    ∀ c ∈ arg, isQuote c = false := by
  intro c hc
  cases hiq : isQuote c with
  | false => rfl
  | true => exact absurd hiq (hw.2.1 c hc)

theorem findAll_p3_render (lk : Lookup) (hw : wfArg lk.arg) (w : Txt) :
    findAll p3try (lk.render ++ w) = lk.arg :: findAll p3try w := by
  have hne : lk.arg ≠ [] := hw.1
  have hq := isQuote_false_of_wf hw
  cases lk with
  | single a =>
    show findAll p3try (("find_element(".toList ++ renderXp a) ++ w) =
      a :: findAll p3try w
    rw [List.append_assoc, findAll_p3_skip13]
    rw [show renderXp a ++ w = "By.XPATH, \"".toList ++ (a ++ '"' :: ')' :: w) by
      simp [renderXp]]
    exact findAll_emit p3try_lt (p3try_emit hne hq w)
  | multi a =>
    show findAll p3try (("find_elements(".toList ++ renderXp a) ++ w) =
      a :: findAll p3try w
    rw [List.append_assoc, findAll_p3_skip14]
    rw [show renderXp a ++ w = "By.XPATH, \"".toList ++ (a ++ '"' :: ')' :: w) by
      simp [renderXp]]
    exact findAll_emit p3try_lt (p3try_emit hne hq w)
  | xpathMode a =>
    show findAll p3try (renderXp a ++ w) = a :: findAll p3try w
    rw [show renderXp a ++ w = "By.XPATH, \"".toList ++ (a ++ '"' :: ')' :: w) by
      simp [renderXp]]
    exact findAll_emit p3try_lt (p3try_emit hne hq w)

theorem findAll_p1_render (lk : Lookup) (hw : wfArg lk.arg) (w : Txt) :
    findAll p1try (lk.render ++ w) = (singleArg? lk).toList ++ findAll p1try w := by
  cases lk with
  | single a =>
    have hne : a ≠ [] := hw.1
    have hq : ∀ c ∈ a, isQuote c = false := isQuote_false_of_wf hw
    show findAll p1try (("find_element(".toList ++ renderXp a) ++ w) = _
    rw [show ("find_element(".toList ++ renderXp a) ++ w =
        "find_element(".toList ++ ("By.XPATH, \"".toList ++ (a ++ '"' :: ')' :: w)) by
      simp [renderXp]]
    rw [findAll_emit p1try_lt (p1try_emit hne hq w)]
    simp [singleArg?]
  | multi a =>
    have hw' : wfArg a := hw
    show findAll p1try (("find_elements(".toList ++ renderXp a) ++ w) = _
    rw [List.append_assoc, findAll_p1_skip14]
    rw [show renderXp a ++ w = "By.XPATH, \"".toList ++ (a ++ '"' :: ')' :: w) by
      simp [renderXp]]
    rw [findAll_p1_skip11]
    rw [findAll_skip (p1try_skip_arg hw' (')' :: w))]
    rw [findAll_skip_cons (by rfl), findAll_skip_cons (by rfl)]
    simp [singleArg?]
  | xpathMode a =>
    have hw' : wfArg a := hw
    show findAll p1try (renderXp a ++ w) = _
    rw [show renderXp a ++ w = "By.XPATH, \"".toList ++ (a ++ '"' :: ')' :: w) by
      simp [renderXp]]
    rw [findAll_p1_skip11]
    rw [findAll_skip (p1try_skip_arg hw' (')' :: w))]
    rw [findAll_skip_cons (by rfl), findAll_skip_cons (by rfl)]
    simp [singleArg?]

theorem findAll_p2_render (lk : Lookup) (hw : wfArg lk.arg) (w : Txt) :
    findAll p2try (lk.render ++ w) = (multiArg? lk).toList ++ findAll p2try w := by
  cases lk with
  | single a =>
    have hw' : wfArg a := hw
    show findAll p2try (("find_element(".toList ++ renderXp a) ++ w) = _
    rw [List.append_assoc, findAll_p2_skip13]
    rw [show renderXp a ++ w = "By.XPATH, \"".toList ++ (a ++ '"' :: ')' :: w) by
      simp [renderXp]]
    rw [findAll_p2_skip11]
    rw [findAll_skip (p2try_skip_arg hw' (')' :: w))]
    rw [findAll_skip_cons (by rfl), findAll_skip_cons (by rfl)]
    simp [multiArg?]
  | multi a =>
    have hne : a ≠ [] := hw.1
    have hq : ∀ c ∈ a, isQuote c = false := isQuote_false_of_wf hw
    show findAll p2try (("find_elements(".toList ++ renderXp a) ++ w) = _
    rw [show ("find_elements(".toList ++ renderXp a) ++ w =
        "find_elements(".toList ++ ("By.XPATH, \"".toList ++ (a ++ '"' :: ')' :: w)) by
      simp [renderXp]]
    rw [findAll_emit p2try_lt (p2try_emit hne hq w)]
    simp [multiArg?]
  | xpathMode a =>
    have hw' : wfArg a := hw
    show findAll p2try (renderXp a ++ w) = _
    rw [show renderXp a ++ w = "By.XPATH, \"".toList ++ (a ++ '"' :: ')' :: w) by
      simp [renderXp]]
    rw [findAll_p2_skip11]
    rw [findAll_skip (p2try_skip_arg hw' (')' :: w))]
    rw [findAll_skip_cons (by rfl), findAll_skip_cons (by rfl)]
    simp [multiArg?]

theorem findAll_p3_renderFile (lks : List Lookup) (h : ∀ lk ∈ lks, wfArg lk.arg) :
    findAll p3try (renderFile lks) = lks.map Lookup.arg := by
  induction lks with
  | nil => rfl
  | cons lk lks ih =>
    cases lks with
    | nil =>
      rw [show renderFile [lk] = lk.render ++ [] by simp [renderFile]]
      rw [findAll_p3_render lk (h lk (by simp)) []]
      rfl
    | cons lk2 lks2 =>
      rw [show renderFile (lk :: lk2 :: lks2) =
        lk.render ++ ('\n' :: renderFile (lk2 :: lks2)) from rfl]
      rw [findAll_p3_render lk (h lk (by simp)) _]
      rw [findAll_skip_cons (by rfl)]
      rw [ih fun l hl => h l (List.mem_cons_of_mem _ hl)]
      rfl

theorem findAll_p1_renderFile (lks : List Lookup) (h : ∀ lk ∈ lks, wfArg lk.arg) :
    findAll p1try (renderFile lks) = lks.filterMap singleArg? := by
  induction lks with
  | nil => rfl
  | cons lk lks ih =>
    cases lks with
    | nil =>
      rw [show renderFile [lk] = lk.render ++ [] by simp [renderFile]]
      rw [findAll_p1_render lk (h lk (by simp)) []]
      cases hs : singleArg? lk <;> simp [List.filterMap_cons, hs, findAll_nil]
    | cons lk2 lks2 =>
      rw [show renderFile (lk :: lk2 :: lks2) =
        lk.render ++ ('\n' :: renderFile (lk2 :: lks2)) from rfl]
      rw [findAll_p1_render lk (h lk (by simp)) _]
      rw [findAll_skip_cons (by rfl)]
      rw [ih fun l hl => h l (List.mem_cons_of_mem _ hl)]
      cases hs : singleArg? lk <;> simp [List.filterMap_cons, hs]

theorem findAll_p2_renderFile (lks : List Lookup) (h : ∀ lk ∈ lks, wfArg lk.arg) :
    findAll p2try (renderFile lks) = lks.filterMap multiArg? := by
  induction lks with
  | nil => rfl
  | cons lk lks ih =>
    cases lks with
    | nil =>
      rw [show renderFile [lk] = lk.render ++ [] by simp [renderFile]]
      rw [findAll_p2_render lk (h lk (by simp)) []]
      cases hs : multiArg? lk <;> simp [List.filterMap_cons, hs, findAll_nil]
    | cons lk2 lks2 =>
      rw [show renderFile (lk :: lk2 :: lks2) =
        lk.render ++ ('\n' :: renderFile (lk2 :: lks2)) from rfl]
      rw [findAll_p2_render lk (h lk (by simp)) _]
      rw [findAll_skip_cons (by rfl)]
      rw [ih fun l hl => h l (List.mem_cons_of_mem _ hl)]
      cases hs : multiArg? lk <;> simp [List.filterMap_cons, hs]

theorem singleArg?_eq_some {lk : Lookup} {a : Txt} (h : singleArg? lk = some a) :
    lk.arg = a := by
  cases lk with
  | single b => simp only [singleArg?, Option.some.injEq] at h; simpa [Lookup.arg] using h
  | multi b => simp [singleArg?] at h
  | xpathMode b => simp [singleArg?] at h

theorem multiArg?_eq_some {lk : Lookup} {a : Txt} (h : multiArg? lk = some a) :
    lk.arg = a := by
  cases lk with
  | single b => simp [multiArg?] at h
  | multi b => simp only [multiArg?, Option.some.injEq] at h; simpa [Lookup.arg] using h
  | xpathMode b => simp [multiArg?] at h

/-- Claim C2: a file of well-formed path-based lookups with pairwise
distinct literal locator arguments yields exactly as many distinct
selector strings as there are lookups — the result is a permutation of
the argument list, so the property is independent of order. -/
theorem c2_extractor_exact_count (lks : List Lookup)
    (hwf : ∀ lk ∈ lks, wfArg lk.arg)
    (hnd : (lks.map Lookup.arg).Nodup) :
    (extract_selectors_from_selenium (renderFile lks)).length = lks.length ∧
      (extract_selectors_from_selenium (renderFile lks)).Nodup ∧
      (extract_selectors_from_selenium (renderFile lks)).Perm (lks.map Lookup.arg) := by
  have hperm : (extract_selectors_from_selenium (renderFile lks)).Perm
      (lks.map Lookup.arg) := by
    unfold extract_selectors_from_selenium
    rw [findAll_p1_renderFile lks hwf, findAll_p2_renderFile lks hwf,
      findAll_p3_renderFile lks hwf]
    apply List.perm_of_nodup_nodup_toFinset_eq (List.nodup_dedup _) hnd
    ext a
    simp only [List.mem_toFinset, List.mem_dedup, List.mem_append, List.mem_filterMap,
      List.mem_map]
    constructor
    · rintro ((⟨lk, hm, hs⟩ | ⟨lk, hm, hs⟩) | ⟨lk, hm, rfl⟩)
      · exact ⟨lk, hm, singleArg?_eq_some hs⟩
      · exact ⟨lk, hm, multiArg?_eq_some hs⟩
      · exact ⟨lk, hm, rfl⟩
    · intro h
      exact Or.inr h
  refine ⟨?_, List.nodup_dedup _, hperm⟩
  rw [hperm.length_eq, List.length_map]

/-- Witness for claim C2 at a three-lookup file covering the three call
shapes with pairwise distinct locator arguments. -/
theorem c2_extractor_exact_count_witness :
    (∀ lk ∈ [Lookup.single ("//a".toList), Lookup.multi ("//b".toList),
        Lookup.xpathMode ("//c".toList)], wfArg lk.arg) ∧
      (([Lookup.single ("//a".toList), Lookup.multi ("//b".toList),
        Lookup.xpathMode ("//c".toList)]).map Lookup.arg).Nodup ∧
      ((extract_selectors_from_selenium (renderFile
          [Lookup.single ("//a".toList), Lookup.multi ("//b".toList),
            Lookup.xpathMode ("//c".toList)])).length =
          ([Lookup.single ("//a".toList), Lookup.multi ("//b".toList),
            Lookup.xpathMode ("//c".toList)]).length ∧
        (extract_selectors_from_selenium (renderFile
          [Lookup.single ("//a".toList), Lookup.multi ("//b".toList),
            Lookup.xpathMode ("//c".toList)])).Nodup ∧
        (extract_selectors_from_selenium (renderFile
          [Lookup.single ("//a".toList), Lookup.multi ("//b".toList),
            Lookup.xpathMode ("//c".toList)])).Perm
          (([Lookup.single ("//a".toList), Lookup.multi ("//b".toList),
            Lookup.xpathMode ("//c".toList)]).map Lookup.arg)) :=
  ⟨by decide, by decide, c2_extractor_exact_count _ (by decide) (by decide)⟩

/-- Claim C9: a file with two identical well-formed lookup invocations
yields exactly one entry for that locator — duplicates are collapsed and
the extractor returns exactly the one selector. -/
theorem c9_extractor_dup_collapse (lk : Lookup) (hw : wfArg lk.arg) :
    extract_selectors_from_selenium (renderFile [lk, lk]) = [lk.arg] := by
  have hwf : ∀ l ∈ [lk, lk], wfArg l.arg := by
    intro l hl
    rcases List.mem_cons.mp hl with rfl | hl2
    · exact hw
    · rcases List.mem_cons.mp hl2 with rfl | h3
      · exact hw
      · simp at h3
  unfold extract_selectors_from_selenium
  rw [findAll_p1_renderFile _ hwf, findAll_p2_renderFile _ hwf,
    findAll_p3_renderFile _ hwf]
  cases lk with
  | single a =>
    show ([a, a] ++ [] ++ [a, a]).dedup = [a]
    rw [show ([a, a] ++ [] ++ [a, a] : List Txt) = [a, a, a, a] by simp]
    rw [List.dedup_cons_of_mem (by simp), List.dedup_cons_of_mem (by simp),
      List.dedup_cons_of_mem (by simp)]
    rw [List.dedup_cons_of_not_mem (by simp), List.dedup_nil]
  | multi a =>
    show ([] ++ [a, a] ++ [a, a]).dedup = [a]
    rw [show ([] ++ [a, a] ++ [a, a] : List Txt) = [a, a, a, a] by simp]
    rw [List.dedup_cons_of_mem (by simp), List.dedup_cons_of_mem (by simp),
      List.dedup_cons_of_mem (by simp)]
    rw [List.dedup_cons_of_not_mem (by simp), List.dedup_nil]
  | xpathMode a =>
    show ([] ++ [] ++ [a, a]).dedup = [a]
    rw [show ([] ++ [] ++ [a, a] : List Txt) = [a, a] by simp]
    rw [List.dedup_cons_of_mem (by simp)]
    rw [List.dedup_cons_of_not_mem (by simp), List.dedup_nil]

/-- Witness for claim C9 at a duplicated single-element lookup. -/
theorem c9_extractor_dup_collapse_witness :
    wfArg (Lookup.single ("//user".toList)).arg ∧
      extract_selectors_from_selenium (renderFile
          [Lookup.single ("//user".toList), Lookup.single ("//user".toList)]) =
        [(Lookup.single ("//user".toList)).arg] :=
  ⟨by decide, c9_extractor_dup_collapse _ (by decide)⟩

/-! ## Normalizer lemmas -/

theorem icalNil (sep : Txt) : List.intercalate sep [] = [] := by
  simp [List.intercalate]

theorem icalSingle (sep x : Txt) : List.intercalate sep [x] = x := by
  simp [List.intercalate]

theorem icalCons (sep x y : Txt) (tl : List Txt) :
    List.intercalate sep (x :: y :: tl) = x ++ sep ++ List.intercalate sep (y :: tl) := by
  simp [List.intercalate, List.intersperse]

theorem icalMapCons {α : Type} (fn : α → Txt) (sep : Txt) (x y : α) (tl : List α) :
    List.intercalate sep (List.map fn (x :: y :: tl)) =
      fn x ++ sep ++ List.intercalate sep (List.map fn (y :: tl)) := by
  rw [List.map_cons, List.map_cons, icalCons]

theorem hexVal_hexDigit : ∀ n < 16, hexVal (hexDigit n) = some n := by decide

theorem escChar_length_pos (c : Char) : 1 ≤ (escChar c).length := by
  unfold escChar
  split_ifs <;> simp

theorem escStr_nil : escStr [] = [] := rfl

theorem escStr_cons (c : Char) (cs : Txt) :
    escStr (c :: cs) = escChar c ++ escStr cs := by
  simp [escStr]

theorem escStr_length_ge (s : Txt) : s.length ≤ (escStr s).length := by
  induction s with
  | nil => simp [escStr]
  | cons c cs ih =>
    rw [escStr_cons]
    simp only [List.length_append, List.length_cons]
    have := escChar_length_pos c
    omega

theorem pStr_esc (s : Txt) : ∀ (rest : Txt) (fuel : Nat), s.length + 1 ≤ fuel →
    pStrAux fuel (escStr s ++ '"' :: rest) = some (s, rest) := by
  induction s with
  | nil =>
    intro rest fuel hf
    cases fuel with
    | zero => omega
    | succ f =>
      show pStrAux (f + 1) ('"' :: rest) = some ([], rest)
      simp [pStrAux]
  | cons c cs ih =>
    intro rest fuel hf
    cases fuel with
    | zero => omega
    | succ f =>
      have hfc : cs.length + 1 ≤ f := by
        simp only [List.length_cons] at hf
        omega
      rw [show escStr (c :: cs) ++ '"' :: rest =
        escChar c ++ (escStr cs ++ '"' :: rest) by rw [escStr_cons]; simp]
      by_cases h1 : c = '"'
      · subst h1
        rw [show escChar '"' = ['\\', '"'] from rfl]
        show pStrAux (f + 1) ('\\' :: ('"' :: (escStr cs ++ '"' :: rest))) = _
        rw [show pStrAux (f + 1) ('\\' :: ('"' :: (escStr cs ++ '"' :: rest))) =
            (pStrAux f (escStr cs ++ '"' :: rest)).map
              (fun p => ('"' :: p.1, p.2)) from rfl]
        rw [ih rest f hfc]
        rfl
      by_cases h2 : c = '\\'
      · subst h2
        rw [show escChar '\\' = ['\\', '\\'] from rfl]
        show pStrAux (f + 1) ('\\' :: ('\\' :: (escStr cs ++ '"' :: rest))) = _
        rw [show pStrAux (f + 1) ('\\' :: ('\\' :: (escStr cs ++ '"' :: rest))) =
            (pStrAux f (escStr cs ++ '"' :: rest)).map
              (fun p => ('\\' :: p.1, p.2)) from rfl]
        rw [ih rest f hfc]
        rfl
      by_cases h3 : c = '\n'
      · subst h3
        rw [show escChar '\n' = ['\\', 'n'] from rfl]
        show pStrAux (f + 1) ('\\' :: ('n' :: (escStr cs ++ '"' :: rest))) = _
        rw [show pStrAux (f + 1) ('\\' :: ('n' :: (escStr cs ++ '"' :: rest))) =
            (pStrAux f (escStr cs ++ '"' :: rest)).map
              (fun p => ('\n' :: p.1, p.2)) from rfl]
        rw [ih rest f hfc]
        rfl
      by_cases h4 : c = '\t'
      · subst h4
        rw [show escChar '\t' = ['\\', 't'] from rfl]
        show pStrAux (f + 1) ('\\' :: ('t' :: (escStr cs ++ '"' :: rest))) = _
        rw [show pStrAux (f + 1) ('\\' :: ('t' :: (escStr cs ++ '"' :: rest))) =
            (pStrAux f (escStr cs ++ '"' :: rest)).map
              (fun p => ('\t' :: p.1, p.2)) from rfl]
        rw [ih rest f hfc]
        rfl
      by_cases h5 : c = '\r'
      · subst h5
        rw [show escChar '\r' = ['\\', 'r'] from rfl]
        show pStrAux (f + 1) ('\\' :: ('r' :: (escStr cs ++ '"' :: rest))) = _
        rw [show pStrAux (f + 1) ('\\' :: ('r' :: (escStr cs ++ '"' :: rest))) =
            (pStrAux f (escStr cs ++ '"' :: rest)).map
              (fun p => ('\r' :: p.1, p.2)) from rfl]
        rw [ih rest f hfc]
        rfl
      by_cases h6 : c = Char.ofNat 8
      · subst h6
        rw [show escChar (Char.ofNat 8) = ['\\', 'b'] from rfl]
        show pStrAux (f + 1) ('\\' :: ('b' :: (escStr cs ++ '"' :: rest))) = _
        rw [show pStrAux (f + 1) ('\\' :: ('b' :: (escStr cs ++ '"' :: rest))) =
            (pStrAux f (escStr cs ++ '"' :: rest)).map
              (fun p => (Char.ofNat 8 :: p.1, p.2)) from rfl]
        rw [ih rest f hfc]
        rfl
      by_cases h7 : c = Char.ofNat 12
      · subst h7
        rw [show escChar (Char.ofNat 12) = ['\\', 'f'] from rfl]
        show pStrAux (f + 1) ('\\' :: ('f' :: (escStr cs ++ '"' :: rest))) = _
        rw [show pStrAux (f + 1) ('\\' :: ('f' :: (escStr cs ++ '"' :: rest))) =
            (pStrAux f (escStr cs ++ '"' :: rest)).map
              (fun p => (Char.ofNat 12 :: p.1, p.2)) from rfl]
        rw [ih rest f hfc]
        rfl
      by_cases h8 : c.toNat < 32
      · have he : escChar c =
            ['\\', 'u', '0', '0', hexDigit (c.toNat / 16), hexDigit (c.toNat % 16)] := by
          unfold escChar
          rw [if_neg h1, if_neg h2, if_neg h3, if_neg h4, if_neg h5, if_neg h6,
            if_neg h7, if_pos h8]
        rw [he]
        have hv0 : hexVal '0' = some 0 := rfl
        have hv1 : hexVal (hexDigit (c.toNat / 16)) = some (c.toNat / 16) :=
          hexVal_hexDigit _ (by omega)
        have hv2 : hexVal (hexDigit (c.toNat % 16)) = some (c.toNat % 16) :=
          hexVal_hexDigit _ (by omega)
        show pStrAux (f + 1) ('\\' :: ('u' :: ('0' :: ('0' ::
          (hexDigit (c.toNat / 16) :: (hexDigit (c.toNat % 16) ::
            (escStr cs ++ '"' :: rest))))))) = _
        simp only [pStrAux, hv0, hv1, hv2]
        rw [if_neg (by omega : ¬ (55296 ≤ ((0 * 16 + 0) * 16 + c.toNat / 16) * 16 +
            c.toNat % 16 ∧ ((0 * 16 + 0) * 16 + c.toNat / 16) * 16 +
            c.toNat % 16 < 56320))]
        rw [if_neg (by omega : ¬ (56320 ≤ ((0 * 16 + 0) * 16 + c.toNat / 16) * 16 +
            c.toNat % 16 ∧ ((0 * 16 + 0) * 16 + c.toNat / 16) * 16 +
            c.toNat % 16 < 57344))]
        rw [ih rest f hfc]
        have hn : ((0 * 16 + 0) * 16 + c.toNat / 16) * 16 + c.toNat % 16 = c.toNat := by
          omega
        rw [hn, Char.ofNat_toNat]
        rfl
      · have he : escChar c = [c] := by
          unfold escChar
          rw [if_neg h1, if_neg h2, if_neg h3, if_neg h4, if_neg h5, if_neg h6,
            if_neg h7, if_neg h8]
        rw [he]
        show pStrAux (f + 1) (c :: (escStr cs ++ '"' :: rest)) = _
        simp only [pStrAux]
        rw [if_neg h1, if_neg h2, if_neg h8]
        rw [ih rest f hfc]
        rfl

theorem pVal_cons_space (fuel : Nat) (t : Txt) :
    pVal fuel (' ' :: t) = pVal fuel t := by
  cases fuel <;> rfl

theorem pVal_print_str (s rest : Txt) (fuel : Nat) (hf : 1 ≤ fuel) :
    pVal fuel ('"' :: (escStr s ++ '"' :: rest)) = some (J.str s, rest) := by
  cases fuel with
  | zero => omega
  | succ f =>
    rw [show pVal (f + 1) ('"' :: (escStr s ++ '"' :: rest)) =
        (pStrAux ((escStr s ++ '"' :: rest).length + 1) (escStr s ++ '"' :: rest)).map
          (fun p => (J.str p.1, p.2)) from rfl]
    rw [pStr_esc s rest _ (by
      have := escStr_length_ge s
      simp only [List.length_append, List.length_cons]
      omega)]
    rfl

theorem pMembers_strKvs (kvs : List (Txt × Txt)) (hne : kvs ≠ []) :
    ∀ (rest : Txt) (fuel : Nat), kvs.length + 1 ≤ fuel →
    pMembers fuel (List.intercalate (", ".toList)
        (kvs.map (fun kv => printStr kv.1 ++ ':' :: ' ' :: printStr kv.2)) ++
          '}' :: rest) =
      some (kvs.map (fun kv => (kv.1, J.str kv.2)), rest) := by
  induction kvs with
  | nil => exact absurd rfl hne
  | cons kv tl ih =>
    intro rest fuel hf
    obtain ⟨k, v⟩ := kv
    cases fuel with
    | zero => simp at hf
    | succ f =>
      have hf1 : 1 ≤ f := by
        simp only [List.length_cons] at hf
        omega
      cases tl with
      | nil =>
        have htext : List.intercalate (", ".toList)
            (([(k, v)]).map (fun kv => printStr kv.1 ++ ':' :: ' ' :: printStr kv.2)) ++
              '}' :: rest =
            '"' :: (escStr k ++ '"' ::
              (':' :: (' ' :: ('"' :: (escStr v ++ '"' :: ('}' :: rest)))))) := by
          rw [List.map_cons, List.map_nil, icalSingle]
          simp [printStr, List.append_assoc]
        rw [htext]
        simp only [pMembers]
        rw [pStr_esc k (':' :: (' ' :: ('"' :: (escStr v ++ '"' :: ('}' :: rest)))))
          _ (by
            have := escStr_length_ge k
            simp only [List.length_append, List.length_cons]
            omega)]
        simp only []
        rw [show (List.dropWhile jsonWs
            (':' :: (' ' :: ('"' :: (escStr v ++ '"' :: ('}' :: rest)))))) =
          ':' :: (' ' :: ('"' :: (escStr v ++ '"' :: ('}' :: rest)))) from rfl]
        simp only []
        rw [pVal_cons_space, pVal_print_str v ('}' :: rest) f hf1]
        simp only []
        rw [show (List.dropWhile jsonWs ('}' :: rest)) = '}' :: rest from rfl]
        simp only [List.map_cons, List.map_nil]
      | cons kv2 tl2 =>
        have htext : List.intercalate (", ".toList)
            ((⟨k, v⟩ :: kv2 :: tl2).map
              (fun kv => printStr kv.1 ++ ':' :: ' ' :: printStr kv.2)) ++ '}' :: rest =
            '"' :: (escStr k ++ '"' ::
              (':' :: (' ' :: ('"' :: (escStr v ++ '"' ::
                (',' :: (' ' :: (List.intercalate (", ".toList)
                  ((kv2 :: tl2).map
                    (fun kv => printStr kv.1 ++ ':' :: ' ' :: printStr kv.2)) ++
                      '}' :: rest)))))))) := by
          rw [icalMapCons]
          simp [printStr, List.append_assoc]
        rw [htext]
        simp only [pMembers]
        rw [pStr_esc k _ _ (by
          have := escStr_length_ge k
          simp only [List.length_append, List.length_cons]
          omega)]
        simp only []
        rw [show (List.dropWhile jsonWs (':' :: (' ' :: ('"' :: (escStr v ++ '"' ::
            (',' :: (' ' :: (List.intercalate (", ".toList)
              ((kv2 :: tl2).map
                (fun kv => printStr kv.1 ++ ':' :: ' ' :: printStr kv.2)) ++
                  '}' :: rest)))))))) =
          ':' :: (' ' :: ('"' :: (escStr v ++ '"' ::
            (',' :: (' ' :: (List.intercalate (", ".toList)
              ((kv2 :: tl2).map
                (fun kv => printStr kv.1 ++ ':' :: ' ' :: printStr kv.2)) ++
                  '}' :: rest)))))) from rfl]
        simp only []
        rw [pVal_cons_space, pVal_print_str v _ f hf1]
        simp only []
        rw [show (List.dropWhile jsonWs (',' :: (' ' :: (List.intercalate (", ".toList)
            ((kv2 :: tl2).map
              (fun kv => printStr kv.1 ++ ':' :: ' ' :: printStr kv.2)) ++
                '}' :: rest)))) =
          ',' :: (' ' :: (List.intercalate (", ".toList)
            ((kv2 :: tl2).map
              (fun kv => printStr kv.1 ++ ':' :: ' ' :: printStr kv.2)) ++
                '}' :: rest)) from rfl]
        simp only []
        have hdw : (List.dropWhile jsonWs (' ' :: (List.intercalate (", ".toList)
            ((kv2 :: tl2).map
              (fun kv => printStr kv.1 ++ ':' :: ' ' :: printStr kv.2)) ++
                '}' :: rest))) =
            List.intercalate (", ".toList)
              ((kv2 :: tl2).map
                (fun kv => printStr kv.1 ++ ':' :: ' ' :: printStr kv.2)) ++
                  '}' :: rest := by
          cases tl2 with
          | nil =>
            rw [List.map_cons, List.map_nil, icalSingle]
            rw [show (List.dropWhile jsonWs
              (' ' :: ((printStr kv2.1 ++ ':' :: ' ' :: printStr kv2.2) ++
              '}' :: rest))) =
              ((printStr kv2.1 ++ ':' :: ' ' :: printStr kv2.2) ++ '}' :: rest)
              from rfl]
          | cons kv3 tl3 =>
            rw [List.map_cons, List.map_cons, icalCons]
            rw [show (List.dropWhile jsonWs
              (' ' :: (((printStr kv2.1 ++ ':' :: ' ' :: printStr kv2.2) ++
              ", ".toList ++ List.intercalate (", ".toList)
                ((printStr kv3.1 ++ ':' :: ' ' :: printStr kv3.2) ::
                  List.map (fun kv => printStr kv.1 ++ ':' :: ' ' :: printStr kv.2) tl3)) ++
              '}' :: rest))) =
              (((printStr kv2.1 ++ ':' :: ' ' :: printStr kv2.2) ++
              ", ".toList ++ List.intercalate (", ".toList)
                ((printStr kv3.1 ++ ':' :: ' ' :: printStr kv3.2) ::
                  List.map (fun kv => printStr kv.1 ++ ':' :: ' ' :: printStr kv.2) tl3)) ++
              '}' :: rest) from rfl]
        rw [hdw]
        have hIH := ih (by simp) rest f (by
          simp only [List.length_cons] at hf ⊢
          omega)
        rw [hIH]
        rfl

theorem dropWhile_idem (p : Char → Bool) (t : Txt) :
    List.dropWhile p (List.dropWhile p t) = List.dropWhile p t := by
  induction t with
  | nil => rfl
  | cons c cs ih =>
    by_cases h : p c = true
    · simp [List.dropWhile_cons, h, ih]
    · simp [List.dropWhile_cons, h]

theorem eq_cons_head (t : Txt) (c : Char) (h : t.head? = some c) :
    t = c :: t.tail := by
  cases t with
  | nil => simp at h
  | cons a l =>
    simp only [List.head?_cons, Option.some.injEq] at h
    rw [h]
    rfl

theorem pVal_obj_quote (f : Nat) (W : Txt) :
    pVal (f + 1) ('{' :: ('"' :: W)) =
      (pMembers f ('"' :: W)).map (fun p => (J.obj p.1, p.2)) := rfl

theorem pVal_arr_obj (f : Nat) (W : Txt) :
    pVal (f + 1) ('[' :: ('{' :: W)) =
      (pElems f ('{' :: W)).map (fun p => (J.arr p.1, p.2)) := rfl

theorem pVal_arr_quote (f : Nat) (W : Txt) :
    pVal (f + 1) ('[' :: ('"' :: W)) =
      (pElems f ('"' :: W)).map (fun p => (J.arr p.1, p.2)) := rfl

theorem ical_kvs_head (kv : Txt × Txt) (tl : List (Txt × Txt)) (tail : Txt) :
    (List.intercalate (", ".toList)
        ((kv :: tl).map (fun p => printStr p.1 ++ ':' :: ' ' :: printStr p.2)) ++
      tail).head? = some '"' := by
  cases tl with
  | nil => rfl
  | cons kv2 tl2 => rfl

theorem ical_objs_head (e : MappingEntry) (es : List MappingEntry) (tail : Txt) :
    (List.intercalate (", ".toList)
        ((e :: es).map (fun x => printStrObj (entryKvs x))) ++ tail).head? =
      some '{' := by
  cases es with
  | nil => rfl
  | cons e2 es2 => rfl

theorem ical_strs_head (s : Txt) (ss : List Txt) (tail : Txt) :
    (List.intercalate (", ".toList) ((s :: ss).map printStr) ++ tail).head? =
      some '"' := by
  cases ss with
  | nil => rfl
  | cons s2 ss2 => rfl

theorem entryKvs_length_le (e : MappingEntry) : (entryKvs e).length ≤ 5 := by
  obtain ⟨b, p, x, c, r⟩ := e
  cases b <;> cases p <;> cases x <;> cases c <;> cases r <;>
    (simp [entryKvs]; try omega)

theorem pElems_cons_space (fuel : Nat) (t : Txt) :
    pElems fuel (' ' :: t) = pElems fuel t := by
  cases fuel with
  | zero => rfl
  | succ f => simp only [pElems, pVal_cons_space]

theorem pVal_printStrObj (kvs : List (Txt × Txt)) (rest : Txt) (fuel : Nat)
    (hf : kvs.length + 2 ≤ fuel) :
    pVal fuel (printStrObj kvs ++ rest) =
      some (J.obj (kvs.map (fun kv => (kv.1, J.str kv.2))), rest) := by
  cases fuel with
  | zero => omega
  | succ f =>
    cases kvs with
    | nil => rfl
    | cons kv tl =>
      have htext : printStrObj (kv :: tl) ++ rest =
          '{' :: (List.intercalate (", ".toList)
            ((kv :: tl).map (fun p => printStr p.1 ++ ':' :: ' ' :: printStr p.2)) ++
              '}' :: rest) := by
        simp [printStrObj, List.append_assoc]
      rw [htext]
      have hX := eq_cons_head _ '"' (ical_kvs_head kv tl ('}' :: rest))
      rw [hX, pVal_obj_quote, ← hX]
      rw [pMembers_strKvs (kv :: tl) (by simp) rest f
        (by simp only [List.length_cons] at hf ⊢; omega)]
      rfl

theorem pElems_entries (es : List MappingEntry) (hne : es ≠ []) :
    ∀ (rest : Txt) (fuel : Nat), es.length + 7 ≤ fuel →
    pElems fuel (List.intercalate (", ".toList)
        (es.map (fun x => printStrObj (entryKvs x))) ++ ']' :: rest) =
      some (es.map entryJson, rest) := by
  induction es with
  | nil => exact absurd rfl hne
  | cons e tl ih =>
    intro rest fuel hf
    cases fuel with
    | zero => simp at hf
    | succ f =>
      have hobj : (entryKvs e).length + 2 ≤ f := by
        have := entryKvs_length_le e
        simp only [List.length_cons] at hf
        omega
      cases tl with
      | nil =>
        have htext : List.intercalate (", ".toList)
            (([e]).map (fun x => printStrObj (entryKvs x))) ++ ']' :: rest =
            printStrObj (entryKvs e) ++ ']' :: rest := by
          rw [List.map_cons, List.map_nil, icalSingle]
        rw [htext]
        simp only [pElems]
        rw [pVal_printStrObj (entryKvs e) (']' :: rest) f hobj]
        simp only []
        rw [show List.dropWhile jsonWs (']' :: rest) = ']' :: rest from rfl]
        simp only []
        rfl
      | cons e2 tl2 =>
        have htext : List.intercalate (", ".toList)
            ((e :: e2 :: tl2).map (fun x => printStrObj (entryKvs x))) ++ ']' :: rest =
            printStrObj (entryKvs e) ++
              (',' :: (' ' :: (List.intercalate (", ".toList)
                ((e2 :: tl2).map (fun x => printStrObj (entryKvs x))) ++
                  ']' :: rest))) := by
          rw [icalMapCons]
          simp [List.append_assoc]
        rw [htext]
        simp only [pElems]
        rw [pVal_printStrObj (entryKvs e) _ f hobj]
        simp only []
        rw [show List.dropWhile jsonWs
            (',' :: (' ' :: (List.intercalate (", ".toList)
              ((e2 :: tl2).map (fun x => printStrObj (entryKvs x))) ++ ']' :: rest))) =
          ',' :: (' ' :: (List.intercalate (", ".toList)
            ((e2 :: tl2).map (fun x => printStrObj (entryKvs x))) ++ ']' :: rest))
          from rfl]
        simp only []
        rw [pElems_cons_space]
        rw [ih (by simp) rest f (by simp only [List.length_cons] at hf ⊢; omega)]
        rfl

theorem pVal_printEntryList (es : List MappingEntry) (rest : Txt) (fuel : Nat)
    (hf : es.length + 8 ≤ fuel) :
    pVal fuel (printEntryList es ++ rest) =
      some (J.arr (es.map entryJson), rest) := by
  cases fuel with
  | zero => omega
  | succ f =>
    cases es with
    | nil => rfl
    | cons e tl =>
      have htext : printEntryList (e :: tl) ++ rest =
          '[' :: (List.intercalate (", ".toList)
            ((e :: tl).map (fun x => printStrObj (entryKvs x))) ++ ']' :: rest) := by
        simp [printEntryList, List.append_assoc]
      rw [htext]
      have hX := eq_cons_head _ '{' (ical_objs_head e tl (']' :: rest))
      rw [hX, pVal_arr_obj, ← hX]
      rw [pElems_entries (e :: tl) (by simp) rest f
        (by simp only [List.length_cons] at hf ⊢; omega)]
      rfl

theorem pElems_strs (rs : List Txt) (hne : rs ≠ []) :
    ∀ (rest : Txt) (fuel : Nat), rs.length + 1 ≤ fuel →
    pElems fuel (List.intercalate (", ".toList) (rs.map printStr) ++ ']' :: rest) =
      some (rs.map J.str, rest) := by
  induction rs with
  | nil => exact absurd rfl hne
  | cons s tl ih =>
    intro rest fuel hf
    cases fuel with
    | zero => simp at hf
    | succ f =>
      have hf1 : 1 ≤ f := by simp only [List.length_cons] at hf; omega
      cases tl with
      | nil =>
        have htext : List.intercalate (", ".toList) (([s]).map printStr) ++
              ']' :: rest =
            '"' :: (escStr s ++ '"' :: (']' :: rest)) := by
          rw [List.map_cons, List.map_nil, icalSingle]
          simp [printStr, List.append_assoc]
        rw [htext]
        simp only [pElems]
        rw [pVal_print_str s (']' :: rest) f hf1]
        simp only []
        rw [show List.dropWhile jsonWs (']' :: rest) = ']' :: rest from rfl]
        simp only []
        rfl
      | cons s2 tl2 =>
        have htext : List.intercalate (", ".toList) ((s :: s2 :: tl2).map printStr) ++
              ']' :: rest =
            '"' :: (escStr s ++ '"' ::
              (',' :: (' ' :: (List.intercalate (", ".toList)
                ((s2 :: tl2).map printStr) ++ ']' :: rest)))) := by
          rw [icalMapCons]
          simp [printStr, List.append_assoc]
        rw [htext]
        simp only [pElems]
        rw [pVal_print_str s _ f hf1]
        simp only []
        rw [show List.dropWhile jsonWs
            (',' :: (' ' :: (List.intercalate (", ".toList)
              ((s2 :: tl2).map printStr) ++ ']' :: rest))) =
          ',' :: (' ' :: (List.intercalate (", ".toList)
            ((s2 :: tl2).map printStr) ++ ']' :: rest)) from rfl]
        simp only []
        rw [pElems_cons_space]
        rw [ih (by simp) rest f (by simp only [List.length_cons] at hf ⊢; omega)]
        rfl

theorem pVal_printStrList (rs : List Txt) (rest : Txt) (fuel : Nat)
    (hf : rs.length + 2 ≤ fuel) :
    pVal fuel (printStrList rs ++ rest) = some (J.arr (rs.map J.str), rest) := by
  cases fuel with
  | zero => omega
  | succ f =>
    cases rs with
    | nil => rfl
    | cons s tl =>
      have htext : printStrList (s :: tl) ++ rest =
          '[' :: (List.intercalate (", ".toList) ((s :: tl).map printStr) ++
            ']' :: rest) := by
        simp [printStrList, List.append_assoc]
      rw [htext]
      have hX := eq_cons_head _ '"' (ical_strs_head s tl (']' :: rest))
      rw [hX, pVal_arr_quote, ← hX]
      rw [pElems_strs (s :: tl) (by simp) rest f
        (by simp only [List.length_cons] at hf ⊢; omega)]
      rfl

theorem pVal_serializeMS (ms : MappingDict) (fuel : Nat)
    (hf : serFuelNeed ms ≤ fuel) :
    pVal fuel (serializeMS ms) = some (msToJson ms, []) := by
  obtain ⟨om, og⟩ := ms
  cases om with
  | none =>
    cases og with
    | none =>
      cases fuel with
      | zero => simp [serFuelNeed] at hf
      | succ f => rfl
    | some rs =>
      cases fuel with
      | zero => simp [serFuelNeed] at hf
      | succ f =>
        have htext : serializeMS ⟨none, some rs⟩ =
            '{' :: ('"' :: (escStr ("general_recommendations".toList) ++ '"' ::
              (':' :: (' ' :: (printStrList rs ++ ['}']))))) := by
          simp [serializeMS, printStr, icalSingle, List.append_assoc]
        rw [htext, pVal_obj_quote]
        cases f with
        | zero => simp [serFuelNeed] at hf
        | succ g =>
          simp only [pMembers]
          rw [pStr_esc ("general_recommendations".toList)
            (':' :: (' ' :: (printStrList rs ++ ['}']))) _ (by
              have := escStr_length_ge ("general_recommendations".toList)
              simp only [List.length_append, List.length_cons]
              omega)]
          simp only []
          rw [show List.dropWhile jsonWs
              (':' :: (' ' :: (printStrList rs ++ ['}']))) =
            ':' :: (' ' :: (printStrList rs ++ ['}'])) from rfl]
          simp only []
          rw [pVal_cons_space, pVal_printStrList rs ['}'] g (by
            simp [serFuelNeed] at hf; omega)]
          simp only []
          rw [show List.dropWhile jsonWs (['}'] : Txt) = ['}'] from rfl]
          simp only []
          rfl
  | some es =>
    cases og with
    | none =>
      cases fuel with
      | zero => simp [serFuelNeed] at hf
      | succ f =>
        have htext : serializeMS ⟨some es, none⟩ =
            '{' :: ('"' :: (escStr ("mappings".toList) ++ '"' ::
              (':' :: (' ' :: (printEntryList es ++ ['}']))))) := by
          simp [serializeMS, printStr, icalSingle, List.append_assoc]
        rw [htext, pVal_obj_quote]
        cases f with
        | zero => simp [serFuelNeed] at hf
        | succ g =>
          simp only [pMembers]
          rw [pStr_esc ("mappings".toList)
            (':' :: (' ' :: (printEntryList es ++ ['}']))) _ (by
              have := escStr_length_ge ("mappings".toList)
              simp only [List.length_append, List.length_cons]
              omega)]
          simp only []
          rw [show List.dropWhile jsonWs
              (':' :: (' ' :: (printEntryList es ++ ['}']))) =
            ':' :: (' ' :: (printEntryList es ++ ['}'])) from rfl]
          simp only []
          rw [pVal_cons_space, pVal_printEntryList es ['}'] g (by
            simp [serFuelNeed] at hf; omega)]
          simp only []
          rw [show List.dropWhile jsonWs (['}'] : Txt) = ['}'] from rfl]
          simp only []
          rfl
    | some rs =>
      cases fuel with
      | zero => simp [serFuelNeed] at hf
      | succ f =>
        have htext : serializeMS ⟨some es, some rs⟩ =
            '{' :: ('"' :: (escStr ("mappings".toList) ++ '"' ::
              (':' :: (' ' :: (printEntryList es ++
                (',' :: (' ' :: ('"' :: (escStr ("general_recommendations".toList) ++
                  '"' :: (':' :: (' ' ::
                    (printStrList rs ++ ['}'])))))))))))) := by
          simp [serializeMS, printStr, icalCons, icalSingle, List.append_assoc]
        rw [htext, pVal_obj_quote]
        cases f with
        | zero => simp [serFuelNeed] at hf
        | succ g =>
          simp only [pMembers]
          rw [pStr_esc ("mappings".toList)
            (':' :: (' ' :: (printEntryList es ++
              (',' :: (' ' :: ('"' :: (escStr ("general_recommendations".toList) ++
                '"' :: (':' :: (' ' :: (printStrList rs ++ ['}'])))))))))) _ (by
              have := escStr_length_ge ("mappings".toList)
              simp only [List.length_append, List.length_cons]
              omega)]
          simp only []
          rw [show List.dropWhile jsonWs
              (':' :: (' ' :: (printEntryList es ++
                (',' :: (' ' :: ('"' :: (escStr ("general_recommendations".toList) ++
                  '"' :: (':' :: (' ' :: (printStrList rs ++ ['}'])))))))))) =
            ':' :: (' ' :: (printEntryList es ++
              (',' :: (' ' :: ('"' :: (escStr ("general_recommendations".toList) ++
                '"' :: (':' :: (' ' :: (printStrList rs ++ ['}']))))))))) from rfl]
          simp only []
          rw [pVal_cons_space, pVal_printEntryList es
            (',' :: (' ' :: ('"' :: (escStr ("general_recommendations".toList) ++
              '"' :: (':' :: (' ' :: (printStrList rs ++ ['}']))))))) g (by
            simp [serFuelNeed] at hf; omega)]
          simp only []
          rw [show List.dropWhile jsonWs
              (',' :: (' ' :: ('"' :: (escStr ("general_recommendations".toList) ++
                '"' :: (':' :: (' ' :: (printStrList rs ++ ['}']))))))) =
            ',' :: (' ' :: ('"' :: (escStr ("general_recommendations".toList) ++
              '"' :: (':' :: (' ' :: (printStrList rs ++ ['}'])))))) from rfl]
          simp only []
          rw [show List.dropWhile jsonWs
              (' ' :: ('"' :: (escStr ("general_recommendations".toList) ++
                '"' :: (':' :: (' ' :: (printStrList rs ++ ['}'])))))) =
            '"' :: (escStr ("general_recommendations".toList) ++
              '"' :: (':' :: (' ' :: (printStrList rs ++ ['}'])))) from rfl]
          cases g with
          | zero => simp [serFuelNeed] at hf
          | succ h =>
            simp only [pMembers]
            rw [pStr_esc ("general_recommendations".toList)
              (':' :: (' ' :: (printStrList rs ++ ['}']))) _ (by
                have := escStr_length_ge ("general_recommendations".toList)
                simp only [List.length_append, List.length_cons]
                omega)]
            simp only []
            rw [show List.dropWhile jsonWs
                (':' :: (' ' :: (printStrList rs ++ ['}']))) =
              ':' :: (' ' :: (printStrList rs ++ ['}'])) from rfl]
            simp only []
            rw [pVal_cons_space, pVal_printStrList rs ['}'] h (by
              simp [serFuelNeed] at hf; omega)]
            simp only []
            rw [show List.dropWhile jsonWs (['}'] : Txt) = ['}'] from rfl]
            simp only []
            rfl

theorem printStr_length_ge (s : Txt) : 2 ≤ (printStr s).length := by
  simp only [printStr, List.length_cons, List.length_append, List.length_nil]
  omega

theorem printStrObj_length_ge (kvs : List (Txt × Txt)) :
    2 ≤ (printStrObj kvs).length := by
  simp only [printStrObj, List.length_cons, List.length_append, List.length_nil]
  omega

theorem ical_length_ge (L : List Txt) (h : ∀ x ∈ L, 2 ≤ x.length) :
    2 * L.length ≤ (List.intercalate (", ".toList) L).length := by
  induction L with
  | nil => simp [icalNil]
  | cons x tl ih =>
    cases tl with
    | nil =>
      rw [icalSingle]
      have hx := h x (List.mem_cons_self x [])
      simp only [List.length_cons, List.length_nil]
      omega
    | cons y tl2 =>
      rw [icalCons]
      have hx := h x (List.mem_cons_self x (y :: tl2))
      have hrest := ih (fun z hz => h z (List.mem_cons_of_mem x hz))
      have hsep : (", ".toList).length = 2 := rfl
      simp only [List.length_append, List.length_cons] at hrest ⊢
      omega

theorem printEntryList_length_ge (es : List MappingEntry) :
    2 + 2 * es.length ≤ (printEntryList es).length := by
  have h := ical_length_ge (es.map (fun x => printStrObj (entryKvs x)))
    (by
      intro x hx
      simp only [List.mem_map] at hx
      obtain ⟨e, -, he⟩ := hx
      rw [← he]
      exact printStrObj_length_ge _)
  simp only [printEntryList, List.length_cons, List.length_append, List.length_nil,
    List.length_map] at h ⊢
  omega

theorem printStrList_length_ge (rs : List Txt) :
    2 + 2 * rs.length ≤ (printStrList rs).length := by
  have h := ical_length_ge (rs.map printStr)
    (by
      intro x hx
      simp only [List.mem_map] at hx
      obtain ⟨s, -, hs⟩ := hx
      rw [← hs]
      exact printStr_length_ge _)
  simp only [printStrList, List.length_cons, List.length_append, List.length_nil,
    List.length_map] at h ⊢
  omega

theorem serFuelNeed_le (ms : MappingDict) :
    serFuelNeed ms ≤ (serializeMS ms).length + 1 := by
  obtain ⟨om, og⟩ := ms
  cases om with
  | none =>
    cases og with
    | none =>
      simp only [serFuelNeed]
      omega
    | some rs =>
      have h1 : serializeMS ⟨none, some rs⟩ =
          '{' :: ('"' :: (escStr ("general_recommendations".toList) ++ '"' ::
            (':' :: (' ' :: (printStrList rs ++ ['}']))))) := by
        simp [serializeMS, printStr, icalSingle, List.append_assoc]
      have h2 := printStrList_length_ge rs
      have h3 : (escStr ("general_recommendations".toList)).length = 23 := by decide
      rw [h1]
      simp only [serFuelNeed, List.length_cons, List.length_append, List.length_nil]
      omega
  | some es =>
    cases og with
    | none =>
      have h1 : serializeMS ⟨some es, none⟩ =
          '{' :: ('"' :: (escStr ("mappings".toList) ++ '"' ::
            (':' :: (' ' :: (printEntryList es ++ ['}']))))) := by
        simp [serializeMS, printStr, icalSingle, List.append_assoc]
      have h2 := printEntryList_length_ge es
      have h3 : (escStr ("mappings".toList)).length = 8 := by decide
      rw [h1]
      simp only [serFuelNeed, List.length_cons, List.length_append, List.length_nil]
      omega
    | some rs =>
      have h1 : serializeMS ⟨some es, some rs⟩ =
          '{' :: ('"' :: (escStr ("mappings".toList) ++ '"' ::
            (':' :: (' ' :: (printEntryList es ++
              (',' :: (' ' :: ('"' :: (escStr ("general_recommendations".toList) ++
                '"' :: (':' :: (' ' ::
                  (printStrList rs ++ ['}'])))))))))))) := by
        simp [serializeMS, printStr, icalCons, icalSingle, List.append_assoc]
      have h2 := printEntryList_length_ge es
      have h4 := printStrList_length_ge rs
      have h3 : (escStr ("mappings".toList)).length = 8 := by decide
      have h5 : (escStr ("general_recommendations".toList)).length = 23 := by decide
      rw [h1]
      simp only [serFuelNeed, List.length_cons, List.length_append, List.length_nil]
      omega

theorem jsonLoads_serializeMS (ms : MappingDict) :
    jsonLoads (serializeMS ms) = some (msToJson ms) := by
  have hdw : List.dropWhile jsonWs (serializeMS ms) = serializeMS ms := rfl
  simp only [jsonLoads]
  rw [hdw]
  rw [pVal_serializeMS ms ((serializeMS ms).length + 1) (serFuelNeed_le ms)]
  rfl

set_option maxRecDepth 4000 in
theorem entry_decode (e : MappingEntry) : entryFromJson (entryJson e) = some e := by
  obtain ⟨b, p, x, c, r⟩ := e
  cases b <;> cases p <;> cases x <;> cases c <;> cases r <;> rfl

theorem asEntryList_decode (es : List MappingEntry) :
    asEntryList (J.arr (es.map entryJson)) = some es := by
  induction es with
  | nil => rfl
  | cons e tl ih =>
    show List.mapM entryFromJson (List.map entryJson (e :: tl)) = some (e :: tl)
    rw [List.map_cons, List.mapM_cons, entry_decode e]
    have ih' : List.mapM entryFromJson (List.map entryJson tl) = some tl := ih
    rw [ih']
    rfl

theorem asStrList_decode (rs : List Txt) :
    asStrList (J.arr (rs.map J.str)) = some rs := by
  induction rs with
  | nil => rfl
  | cons s tl ih =>
    show List.mapM asStr (List.map J.str (s :: tl)) = some (s :: tl)
    rw [List.map_cons, List.mapM_cons]
    have ih' : List.mapM asStr (List.map J.str tl) = some tl := ih
    rw [ih']
    rfl

theorem ms_decode (ms : MappingDict) : msFromJson (msToJson ms) = some ms := by
  obtain ⟨om, og⟩ := ms
  cases om with
  | none =>
    cases og with
    | none => rfl
    | some rs =>
      show msFromJson (J.obj [("general_recommendations".toList,
          J.arr (rs.map J.str))]) = some ⟨none, some rs⟩
      simp only [msFromJson]
      rw [show jLookup ("mappings".toList)
          [("general_recommendations".toList, J.arr (rs.map J.str))] = none from rfl]
      rw [show jLookup ("general_recommendations".toList)
          [("general_recommendations".toList, J.arr (rs.map J.str))] =
        some (J.arr (rs.map J.str)) from rfl]
      rw [show Option.bind (some (J.arr (rs.map J.str))) asStrList =
        asStrList (J.arr (rs.map J.str)) from rfl]
      rw [asStrList_decode]
      rfl
  | some es =>
    cases og with
    | none =>
      show msFromJson (J.obj [("mappings".toList,
          J.arr (es.map entryJson))]) = some ⟨some es, none⟩
      simp only [msFromJson]
      rw [show jLookup ("mappings".toList)
          [("mappings".toList, J.arr (es.map entryJson))] =
        some (J.arr (es.map entryJson)) from rfl]
      rw [show jLookup ("general_recommendations".toList)
          [("mappings".toList, J.arr (es.map entryJson))] = none from rfl]
      rw [show Option.bind (some (J.arr (es.map entryJson))) asEntryList =
        asEntryList (J.arr (es.map entryJson)) from rfl]
      rw [asEntryList_decode]
      rfl
    | some rs =>
      show msFromJson (J.obj [("mappings".toList, J.arr (es.map entryJson)),
          ("general_recommendations".toList, J.arr (rs.map J.str))]) =
        some ⟨some es, some rs⟩
      simp only [msFromJson]
      rw [show jLookup ("mappings".toList)
          [("mappings".toList, J.arr (es.map entryJson)),
           ("general_recommendations".toList, J.arr (rs.map J.str))] =
        some (J.arr (es.map entryJson)) from rfl]
      rw [show jLookup ("general_recommendations".toList)
          [("mappings".toList, J.arr (es.map entryJson)),
           ("general_recommendations".toList, J.arr (rs.map J.str))] =
        some (J.arr (rs.map J.str)) from rfl]
      rw [show Option.bind (some (J.arr (es.map entryJson))) asEntryList =
        asEntryList (J.arr (es.map entryJson)) from rfl]
      rw [show Option.bind (some (J.arr (rs.map J.str))) asStrList =
        asStrList (J.arr (rs.map J.str)) from rfl]
      rw [asEntryList_decode, asStrList_decode]

theorem hexDigit_ne_bt : ∀ n < 16, hexDigit n ≠ btChar := by decide

theorem escChar_nbt (c : Char) (h : ¬ c = btChar) : btChar ∉ escChar c := by
  unfold escChar
  split_ifs with h1 h2 h3 h4 h5 h6 h7 h8
  · decide
  · decide
  · decide
  · decide
  · decide
  · decide
  · decide
  · intro hm
    simp only [List.mem_cons, List.not_mem_nil, or_false] at hm
    rcases hm with hm | hm | hm | hm | hm | hm
    · exact absurd hm (by decide)
    · exact absurd hm (by decide)
    · exact absurd hm (by decide)
    · exact absurd hm (by decide)
    · exact hexDigit_ne_bt (c.toNat / 16) (by omega) hm.symm
    · exact hexDigit_ne_bt (c.toNat % 16) (by omega) hm.symm
  · intro hm
    simp only [List.mem_cons, List.not_mem_nil, or_false] at hm
    exact h hm.symm

theorem noBtB_cons (c : Char) (cs : Txt) (h : noBtB (c :: cs) = true) :
    ¬ c = btChar ∧ noBtB cs = true := by
  simp only [noBtB, List.contains_cons, Bool.not_or, Bool.and_eq_true,
    Bool.not_eq_true'] at h
  obtain ⟨h1, h2⟩ := h
  refine ⟨?_, ?_⟩
  · intro he
    rw [he] at h1
    simp at h1
  · simp only [noBtB, Bool.not_eq_true']
    exact h2

theorem escStr_nbt (s : Txt) (h : noBtB s = true) : btChar ∉ escStr s := by
  induction s with
  | nil => simp [escStr]
  | cons c cs ih =>
    obtain ⟨h1, h2⟩ := noBtB_cons c cs h
    rw [escStr_cons]
    intro hm
    rcases List.mem_append.mp hm with hm | hm
    · exact escChar_nbt c h1 hm
    · exact ih h2 hm

theorem printStr_nbt (s : Txt) (h : noBtB s = true) : btChar ∉ printStr s := by
  intro hm
  simp only [printStr, List.mem_append, List.mem_cons, List.mem_singleton,
    List.not_mem_nil, or_false] at hm
  rcases hm with (hm | hm) | hm
  · exact absurd hm (by decide)
  · exact escStr_nbt s h hm
  · exact absurd hm (by decide)

theorem mem_ical (a : Char) (sep : Txt) (L : List Txt)
    (h : a ∈ List.intercalate sep L) : a ∈ sep ∨ ∃ x ∈ L, a ∈ x := by
  induction L with
  | nil =>
    rw [icalNil] at h
    simp at h
  | cons x tl ih =>
    cases tl with
    | nil =>
      rw [icalSingle] at h
      exact Or.inr ⟨x, List.mem_cons_self x [], h⟩
    | cons y tl2 =>
      rw [icalCons] at h
      rcases List.mem_append.mp h with h1 | h1
      · rcases List.mem_append.mp h1 with h2 | h2
        · exact Or.inr ⟨x, List.mem_cons_self x (y :: tl2), h2⟩
        · exact Or.inl h2
      · rcases ih h1 with h2 | ⟨z, hz, ha⟩
        · exact Or.inl h2
        · exact Or.inr ⟨z, List.mem_cons_of_mem x hz, ha⟩

theorem entryKvs_nbt (e : MappingEntry) (h : entryNoBt e = true) :
    ∀ kv ∈ entryKvs e, noBtB kv.1 = true ∧ noBtB kv.2 = true := by
  intro kv hm
  constructor
  · have hm' := hm
    simp only [entryKvs, List.mem_append] at hm'
    rcases hm' with ((((h1 | h1) | h1) | h1) | h1)
    · rcases hb : e.broken_selector with _ | v
      · rw [hb] at h1; simp at h1
      · rw [hb] at h1
        simp only [List.mem_singleton] at h1
        rw [h1]
        exact (show noBtB ("broken_selector".toList) = true by decide)
    · rcases hb : e.playwright_equivalent with _ | v
      · rw [hb] at h1; simp at h1
      · rw [hb] at h1
        simp only [List.mem_singleton] at h1
        rw [h1]
        exact (show noBtB ("playwright_equivalent".toList) = true by decide)
    · rcases hb : e.suggested_xpath with _ | v
      · rw [hb] at h1; simp at h1
      · rw [hb] at h1
        simp only [List.mem_singleton] at h1
        rw [h1]
        exact (show noBtB ("suggested_xpath".toList) = true by decide)
    · rcases hb : e.suggested_css with _ | v
      · rw [hb] at h1; simp at h1
      · rw [hb] at h1
        simp only [List.mem_singleton] at h1
        rw [h1]
        exact (show noBtB ("suggested_css".toList) = true by decide)
    · rcases hb : e.reasoning with _ | v
      · rw [hb] at h1; simp at h1
      · rw [hb] at h1
        simp only [List.mem_singleton] at h1
        rw [h1]
        exact (show noBtB ("reasoning".toList) = true by decide)
  · simp only [entryNoBt, List.all_eq_true] at h
    exact h kv hm

theorem printStrObj_nbt (kvs : List (Txt × Txt))
    (h : ∀ kv ∈ kvs, noBtB kv.1 = true ∧ noBtB kv.2 = true) :
    btChar ∉ printStrObj kvs := by
  intro hm
  simp only [printStrObj, List.mem_cons, List.mem_append, List.mem_singleton,
    List.not_mem_nil, or_false] at hm
  rcases hm with (hm | hm) | hm
  · exact absurd hm (by decide)
  · rcases mem_ical _ _ _ hm with hm | ⟨m, hmem, hin⟩
    · exact absurd hm (by decide)
    · simp only [List.mem_map] at hmem
      obtain ⟨kv, hkv, hme⟩ := hmem
      rw [← hme] at hin
      rcases List.mem_append.mp hin with hin | hin
      · exact printStr_nbt _ (h kv hkv).1 hin
      · rcases List.mem_cons.mp hin with hin | hin
        · exact absurd hin (by decide)
        · rcases List.mem_cons.mp hin with hin | hin
          · exact absurd hin (by decide)
          · exact printStr_nbt _ (h kv hkv).2 hin
  · exact absurd hm (by decide)

theorem printEntryList_nbt (es : List MappingEntry)
    (h : ∀ e ∈ es, entryNoBt e = true) : btChar ∉ printEntryList es := by
  intro hm
  simp only [printEntryList, List.mem_cons, List.mem_append, List.mem_singleton,
    List.not_mem_nil, or_false] at hm
  rcases hm with (hm | hm) | hm
  · exact absurd hm (by decide)
  · rcases mem_ical _ _ _ hm with hm | ⟨m, hmem, hin⟩
    · exact absurd hm (by decide)
    · simp only [List.mem_map] at hmem
      obtain ⟨e, he, hme⟩ := hmem
      rw [← hme] at hin
      exact printStrObj_nbt (entryKvs e) (entryKvs_nbt e (h e he)) hin
  · exact absurd hm (by decide)

theorem printStrList_nbt (rs : List Txt)
    (h : ∀ r ∈ rs, noBtB r = true) : btChar ∉ printStrList rs := by
  intro hm
  simp only [printStrList, List.mem_cons, List.mem_append, List.mem_singleton,
    List.not_mem_nil, or_false] at hm
  rcases hm with (hm | hm) | hm
  · exact absurd hm (by decide)
  · rcases mem_ical _ _ _ hm with hm | ⟨m, hmem, hin⟩
    · exact absurd hm (by decide)
    · simp only [List.mem_map] at hmem
      obtain ⟨r, hr, hme⟩ := hmem
      rw [← hme] at hin
      exact printStr_nbt _ (h r hr) hin
  · exact absurd hm (by decide)

theorem serializeMS_nbt (ms : MappingDict) (h : msNoBt ms = true) :
    btChar ∉ serializeMS ms := by
  simp only [msNoBt, Bool.and_eq_true, List.all_eq_true] at h
  obtain ⟨hes, hrs⟩ := h
  intro hm
  rw [show serializeMS ms = ('{' :: List.intercalate (", ".toList)
      ((ms.mappings.toList.map (fun es => printStr ("mappings".toList) ++
          ':' :: ' ' :: printEntryList es)) ++
       (ms.general_recommendations.toList.map (fun rs =>
          printStr ("general_recommendations".toList) ++
            ':' :: ' ' :: printStrList rs)))) ++ ['}'] from rfl] at hm
  rcases List.mem_append.mp hm with hm | hm
  · rcases List.mem_cons.mp hm with hm | hm
    · exact absurd hm (by decide)
    · rcases mem_ical _ _ _ hm with hm | ⟨m, hmem, hin⟩
      · exact absurd hm (by decide)
      · rcases List.mem_append.mp hmem with hmem | hmem
        · simp only [List.mem_map] at hmem
          obtain ⟨es, hesl, hme⟩ := hmem
          rw [← hme] at hin
          rcases List.mem_append.mp hin with hin | hin
          · exact printStr_nbt _ (by decide) hin
          · rcases List.mem_cons.mp hin with hin | hin
            · exact absurd hin (by decide)
            · rcases List.mem_cons.mp hin with hin | hin
              · exact absurd hin (by decide)
              · have hsome : ms.mappings = some es := by
                  cases homp : ms.mappings with
                  | none => rw [homp] at hesl; simp at hesl
                  | some es2 =>
                    rw [homp] at hesl
                    simp at hesl
                    rw [hesl]
                have hes' : ∀ e ∈ es, entryNoBt e = true := by
                  intro e he
                  apply hes
                  rw [hsome]
                  exact he
                exact printEntryList_nbt es hes' hin
        · simp only [List.mem_map] at hmem
          obtain ⟨rs, hrsl, hme⟩ := hmem
          rw [← hme] at hin
          rcases List.mem_append.mp hin with hin | hin
          · exact printStr_nbt _ (by decide) hin
          · rcases List.mem_cons.mp hin with hin | hin
            · exact absurd hin (by decide)
            · rcases List.mem_cons.mp hin with hin | hin
              · exact absurd hin (by decide)
              · have hsome : ms.general_recommendations = some rs := by
                  cases homp : ms.general_recommendations with
                  | none => rw [homp] at hrsl; simp at hrsl
                  | some rs2 =>
                    rw [homp] at hrsl
                    simp at hrsl
                    rw [hrsl]
                have hrs' : ∀ r ∈ rs, noBtB r = true := by
                  intro r hr
                  apply hrs
                  rw [hsome]
                  exact hr
                exact printStrList_nbt rs hrs' hin
  · simp only [List.mem_singleton] at hm
    exact absurd hm (by decide)

theorem subFenceAux_id (lit : Txt) (c0 : Char) (hl : lit.head? = some c0) :
    ∀ (fuel : Nat) (t : Txt), c0 ∉ t → subFenceAux lit fuel t = t := by
  intro fuel
  induction fuel with
  | zero =>
    intro t h
    rfl
  | succ f ih =>
    intro t h
    cases t with
    | nil => rfl
    | cons c cs =>
      have hpre : lit.isPrefixOf (c :: cs) = false := by
        cases lit with
        | nil => simp at hl
        | cons l0 ltl =>
          simp only [List.head?_cons, Option.some.injEq] at hl
          subst hl
          have hne : l0 ≠ c := fun he => h (he ▸ List.mem_cons_self c cs)
          rw [show List.isPrefixOf (l0 :: ltl) (c :: cs) =
            ((l0 == c) && List.isPrefixOf ltl cs) from rfl]
          rw [beq_eq_false_iff_ne.mpr hne, Bool.false_and]
      simp only [subFenceAux, hpre, Bool.false_eq_true, if_false]
      rw [ih cs (fun hc => h (List.mem_cons_of_mem c hc))]

theorem subFence_id (lit t : Txt) (c0 : Char) (hl : lit.head? = some c0)
    (h : c0 ∉ t) : subFence lit t = t :=
  subFenceAux_id lit c0 hl t.length t h

theorem pyStrip_brace (X : Txt) :
    pyStrip ('{' :: (X ++ ['}'])) = '{' :: (X ++ ['}']) := by
  unfold pyStrip
  rw [show List.dropWhile pySpace ('{' :: (X ++ ['}'])) = '{' :: (X ++ ['}'])
    from rfl]
  rw [List.reverse_cons, List.reverse_append]
  rw [show (['}'] : Txt).reverse = ['}'] from rfl]
  rw [show List.dropWhile pySpace ((['}'] : Txt) ++ X.reverse ++ ['{']) =
    (['}'] : Txt) ++ X.reverse ++ ['{'] from rfl]
  simp [List.reverse_append, List.reverse_reverse]

theorem pyStrip_serializeMS (ms : MappingDict) :
    pyStrip (serializeMS ms) = serializeMS ms := by
  rw [show serializeMS ms = '{' :: ((List.intercalate (", ".toList)
      ((ms.mappings.toList.map (fun es => printStr ("mappings".toList) ++
          ':' :: ' ' :: printEntryList es)) ++
       (ms.general_recommendations.toList.map (fun rs =>
          printStr ("general_recommendations".toList) ++
            ':' :: ' ' :: printStrList rs)))) ++ ['}']) from rfl]
  rw [pyStrip_brace]

theorem dropWhile_head_false (p : Char → Bool) (l : Txt) (c : Char)
    (h : (List.dropWhile p l).head? = some c) : p c = false := by
  induction l with
  | nil => simp at h
  | cons a tl ih =>
    by_cases hp : p a = true
    · rw [List.dropWhile_cons, if_pos hp] at h
      exact ih h
    · rw [List.dropWhile_cons, if_neg hp] at h
      simp only [List.head?_cons, Option.some.injEq] at h
      subst h
      simpa using hp

theorem pVal_dropWhile_eq (f : Nat) (t : Txt) :
    pVal (f + 1) t = pVal (f + 1) (List.dropWhile jsonWs t) := by
  simp only [pVal, dropWhile_idem]

theorem pNum_none_of_no_starter (c : Char) (r : Txt) (hs : jsonStarter c = false) :
    pNum (c :: r) = none := by
  have hN : ¬ c = 'N' := fun he => absurd hs (by rw [he]; decide)
  have hI : ¬ c = 'I' := fun he => absurd hs (by rw [he]; decide)
  have hdash : ¬ c = '-' := fun he => absurd hs (by rw [he]; decide)
  have hzero : ¬ c = '0' := fun he => absurd hs (by rw [he]; decide)
  have hdig : ¬ c.isDigit = true := by
    intro hd
    exact absurd hs (by simp [jsonStarter, hd])
  unfold pNum
  rw [if_neg (show ¬ (("NaN".toList).isPrefixOf (c :: r) = true) from fun hp => by
    rw [show ("NaN".toList).isPrefixOf (c :: r) =
      (('N' == c) && ("aN".toList).isPrefixOf r) from rfl] at hp
    rw [Bool.and_eq_true] at hp
    exact hN (eq_of_beq hp.1).symm)]
  rw [if_neg (show ¬ (("Infinity".toList).isPrefixOf (c :: r) = true) from fun hp => by
    rw [show ("Infinity".toList).isPrefixOf (c :: r) =
      (('I' == c) && ("nfinity".toList).isPrefixOf r) from rfl] at hp
    rw [Bool.and_eq_true] at hp
    exact hI (eq_of_beq hp.1).symm)]
  rw [if_neg (show ¬ (("-Infinity".toList).isPrefixOf (c :: r) = true) from fun hp => by
    rw [show ("-Infinity".toList).isPrefixOf (c :: r) =
      (('-' == c) && ("Infinity".toList).isPrefixOf r) from rfl] at hp
    rw [Bool.and_eq_true] at hp
    exact hdash (eq_of_beq hp.1).symm)]
  simp only []
  rw [if_neg hdash]
  simp only []
  rw [if_neg hzero, if_neg hdig]

theorem pVal_none_of_no_starter (fuel : Nat) (t : Txt)
    (h : headNoStarter (List.dropWhile jsonWs t) = true) : pVal fuel t = none := by
  cases fuel with
  | zero => rfl
  | succ f =>
    cases ht : List.dropWhile jsonWs t with
    | nil =>
      rw [pVal_dropWhile_eq, ht]
      rfl
    | cons c r =>
      have hs : jsonStarter c = false := by
        rw [ht] at h
        simpa [headNoStarter] using h
      have hws : jsonWs c = false :=
        dropWhile_head_false jsonWs t c (by rw [ht]; rfl)
      rw [pVal_dropWhile_eq, ht]
      simp only [pVal]
      rw [show List.dropWhile jsonWs (c :: r) = c :: r from by
        rw [List.dropWhile_cons, if_neg (by simp [hws])]]
      split
      · rename_i r2 heq
        injection heq with h1 h2
        exact absurd hs (by rw [h1]; decide)
      · rename_i r2 heq
        injection heq with h1 h2
        exact absurd hs (by rw [h1]; decide)
      · rename_i r2 heq
        injection heq with h1 h2
        exact absurd hs (by rw [h1]; decide)
      · have hn : ¬ c = 'n' := fun he => absurd hs (by rw [he]; decide)
        have htt : ¬ c = 't' := fun he => absurd hs (by rw [he]; decide)
        have hff : ¬ c = 'f' := fun he => absurd hs (by rw [he]; decide)
        rw [if_neg (show ¬ (("null".toList).isPrefixOf (c :: r) = true) from
          fun hp => by
            rw [show ("null".toList).isPrefixOf (c :: r) =
              (('n' == c) && ("ull".toList).isPrefixOf r) from rfl] at hp
            rw [Bool.and_eq_true] at hp
            exact hn (eq_of_beq hp.1).symm)]
        rw [if_neg (show ¬ (("true".toList).isPrefixOf (c :: r) = true) from
          fun hp => by
            rw [show ("true".toList).isPrefixOf (c :: r) =
              (('t' == c) && ("rue".toList).isPrefixOf r) from rfl] at hp
            rw [Bool.and_eq_true] at hp
            exact htt (eq_of_beq hp.1).symm)]
        rw [if_neg (show ¬ (("false".toList).isPrefixOf (c :: r) = true) from
          fun hp => by
            rw [show ("false".toList).isPrefixOf (c :: r) =
              (('f' == c) && ("alse".toList).isPrefixOf r) from rfl] at hp
            rw [Bool.and_eq_true] at hp
            exact hff (eq_of_beq hp.1).symm)]
        rw [pNum_none_of_no_starter c r hs]
        rfl

/-- C4 (amended): for every Mapping Set none of whose string fields or
recommendation strings contains a backtick character, serializing it to
JSON text and passing that text through the Normalizer of
`analyze_and_map_selectors` (the two fence-stripping substitutions,
`strip`, and `json.loads`) yields exactly the JSON value of the Mapping
Set, and decoding that value recovers the Mapping Set with all entries
and recommendations preserved. -/
theorem c4_normalizer_roundtrip (ms : MappingDict) (h : msNoBt ms = true) :
    analyze_and_map_selectors (serializeMS ms) = some (msToJson ms) ∧
    msFromJson (msToJson ms) = some ms := by
  constructor
  · have hnb := serializeMS_nbt ms h
    unfold analyze_and_map_selectors
    rw [subFence_id ("```json".toList) (serializeMS ms) btChar (by decide) hnb]
    rw [subFence_id ("```".toList) (serializeMS ms) btChar (by decide) hnb]
    rw [pyStrip_serializeMS, jsonLoads_serializeMS]
  · exact ms_decode ms

set_option maxRecDepth 8000 in
/-- Witness for C4: a concrete Mapping Set with one fully-populated
entry and one recommendation satisfies the backtick-free hypothesis and
round-trips. -/
theorem c4_normalizer_roundtrip_witness :
    msNoBt c4ms = true ∧
    (analyze_and_map_selectors (serializeMS c4ms) = some (msToJson c4ms) ∧
     msFromJson (msToJson c4ms) = some c4ms) :=
  ⟨by decide, c4_normalizer_roundtrip c4ms (by decide)⟩

set_option maxRecDepth 8000 in
/-- Counterexample to C4 as stated: for the Mapping Set whose only
recommendation is the three-character string made of backticks, the
Normalizer does not return the serialized Mapping Set's JSON value —
the global fence-stripping `re.sub` deletes the backticks inside the
string literal before parsing. -/
theorem c4_counterexample :
    ¬ analyze_and_map_selectors (serializeMS c4msBad) =
      some (msToJson c4msBad) := by
  intro h
  have h2 : (analyze_and_map_selectors (serializeMS c4msBad)).bind msFromJson =
      (some (msToJson c4msBad)).bind msFromJson := by rw [h]
  have h3 : (analyze_and_map_selectors (serializeMS c4msBad)).bind msFromJson =
      some ⟨some [], some [[]]⟩ := by decide
  have h4 : (some (msToJson c4msBad)).bind msFromJson =
      some ⟨some [], some [[btChar, btChar, btChar]]⟩ := by decide
  rw [h3, h4] at h2
  exact absurd h2 (by decide)

/-- C5: any raw response text whose normalized form (fence stripping
plus `strip`, as `analyze_and_map_selectors` performs) does not begin
with a character that can start a JSON value — plain prose in
particular — makes the Normalizer return `none`; the `except` clause is
modelled by the total parser, so no exception escapes. -/
theorem c5_normalizer_rejects_prose (s : Txt)
    (h : headNoStarter (List.dropWhile jsonWs
      (pyStrip (subFence ("```".toList) (subFence ("```json".toList) s)))) =
      true) :
    analyze_and_map_selectors s = none := by
  unfold analyze_and_map_selectors jsonLoads
  simp only []
  rw [pVal_none_of_no_starter _ _ (by rw [dropWhile_idem]; exact h)]

set_option maxRecDepth 8000 in
/-- Witness for C5: a concrete plain-prose response is rejected with
`none`. -/
theorem c5_normalizer_rejects_prose_witness :
    headNoStarter (List.dropWhile jsonWs
      (pyStrip (subFence ("```".toList) (subFence ("```json".toList) c5prose)))) =
      true ∧
    analyze_and_map_selectors c5prose = none :=
  ⟨by decide, c5_normalizer_rejects_prose c5prose (by decide)⟩

end SelectorFixer
